import Mathlib

/-!
Verification of the openclaw access-control and subscription-state engine.

This file is a shallow embedding, in Lean 4, of the core decision functions of
the repository: the access decision engine (`canSendMessage` and its role/limit
policy), the user-record store operations (`incrementUsage`, `updateUser`,
`createUser`), the owner/admin reconciliation (`initializeOwners`,
`ensureOwnerUsers`), the in-memory burst guard (`checkTrialBurstAllowance`),
the message processor's fail-open access-control block, and the HMAC-signed
Google OAuth state-token protocol (`createGoogleStateToken`,
`verifyGoogleStateToken`) together with the byte-level codecs it relies on
(UTF-8, base64url, SHA-256/HMAC, JSON).

Modelling conventions:
- JavaScript strings are modelled as `List Char` (`JStr`); the byte views used
  by `Buffer.from` are produced by a real UTF-8 encoder.
- Timestamps are naturals (milliseconds since the Unix epoch, as produced by
  `Date.now()`), except in the token protocol where the source applies
  `Math.trunc` to caller-supplied numbers and we use `Int`.
- JavaScript numbers that flow through `JSON.parse` are modelled as `Rat`
  (every JSON numeral denotes a rational); `Math.trunc` becomes integer
  T-division.  The IEEE-754 overflow to `Infinity` on huge literals is not
  modelled, so the `Number.isFinite` guards of the source are vacuous here.
- Functions that read the ambient clock (`Date.now()`, `new Date()`) take the
  clock value as an explicit parameter; all call sites in one source function
  share one parameter because they share one wall clock.
- The source's stores are asynchronous and file/SQLite backed; they are
  modelled as pure association lists with explicit state passing.  Thrown
  exceptions become `Except` errors.
-/

/-! ## JavaScript string primitives -/

/-- A JavaScript string, modelled as its list of Unicode scalar values. -/
abbrev JStr := List Char

/-- Whitespace for JavaScript `String.prototype.trim`: the WhiteSpace and
LineTerminator productions (tab through carriage return, space, NBSP, BOM and
the Unicode space separators). -/
def isJsWhitespaceChar (c : Char) : Bool :=
  (9 ≤ c.toNat && c.toNat ≤ 13) || c.toNat = 32 || c.toNat = 160 ||
  c.toNat = 0x1680 || (0x2000 ≤ c.toNat && c.toNat ≤ 0x200A) ||
  c.toNat = 0x2028 || c.toNat = 0x2029 || c.toNat = 0x202F ||
  c.toNat = 0x205F || c.toNat = 0x3000 || c.toNat = 0xFEFF

/-- JavaScript `String.prototype.trim`: strip leading and trailing whitespace. -/
def jsTrim (s : JStr) : JStr :=
  ((s.dropWhile isJsWhitespaceChar).reverse.dropWhile isJsWhitespaceChar).reverse

/-- Scan for the last occurrence of a character, carrying the running index and
the best index found so far (`-1` when none), as `String.prototype.lastIndexOf`
does for a one-character needle. -/
def jsLastIndexOfAux (c : Char) : JStr → Nat → Int → Int
  | [], _, best => best
  | x :: xs, i, best => jsLastIndexOfAux c xs (i + 1) (if x = c then (i : Int) else best)

/-- JavaScript `s.lastIndexOf(c)` for a single-character needle: the greatest
index holding `c`, or `-1`. -/
def jsLastIndexOf (c : Char) (s : JStr) : Int :=
  jsLastIndexOfAux c s 0 (-1)

/-! ## UTC calendar arithmetic

`getTodayDateString`, `getTomorrowDateString` and `Date.prototype.toISOString`
in the source all derive from the proleptic Gregorian calendar in UTC.  The
field extraction below follows the standard civil-from-days algorithm,
restricted to days ≥ 0 (dates from 1970-01-01 on), which is the range every
`Date.now()`-derived value inhabits. -/

/-- Milliseconds in one UTC day. -/
def msPerDay : Nat := 86400000

/-- Gregorian (year, month, day) of a day count since 1970-01-01 UTC. -/
def civilFromDays (z0 : Nat) : Nat × Nat × Nat :=
  let z := z0 + 719468
  let era := z / 146097
  let doe := z % 146097
  let yoe := (doe - doe / 1460 + doe / 36524 - doe / 146096) / 365
  let y := yoe + era * 400
  let doy := doe - (365 * yoe + yoe / 4 - yoe / 100)
  let mp := (5 * doy + 2) / 153
  let d := doy - (153 * mp + 2) / 5 + 1
  let m := if mp < 10 then mp + 3 else mp - 9
  (if m ≤ 2 then y + 1 else y, m, d)

/-- The decimal digit character for `d < 10`. -/
def digitChar (d : Nat) : Char := Char.ofNat (48 + d)

/-- Two decimal digits, zero padded (for values below 100). -/
def pad2Chars (n : Nat) : List Char := [digitChar (n / 10 % 10), digitChar (n % 10)]

/-- Three decimal digits, zero padded (for values below 1000). -/
def pad3Chars (n : Nat) : List Char :=
  [digitChar (n / 100 % 10), digitChar (n / 10 % 10), digitChar (n % 10)]

/-- Four decimal digits, zero padded (for values below 10000; every year a
`Date.now()`-derived date can produce in this deployment's lifetime). -/
def pad4Chars (n : Nat) : List Char :=
  [digitChar (n / 1000 % 10), digitChar (n / 100 % 10), digitChar (n / 10 % 10),
    digitChar (n % 10)]

/-- The `YYYY-MM-DD` date part of an ISO string, from a day count. -/
def isoDateChars (day : Nat) : JStr :=
  match civilFromDays day with
  | (y, m, d) => pad4Chars y ++ '-' :: pad2Chars m ++ '-' :: pad2Chars d

/-- The source's `getTodayDateString()`: `new Date().toISOString().split("T")[0]`,
the UTC calendar date of the clock value. -/
def getTodayDateString (nowMs : Nat) : JStr := isoDateChars (nowMs / msPerDay)

/-- `Date.prototype.toISOString` for a nonnegative epoch-millisecond value:
`YYYY-MM-DDTHH:MM:SS.mmmZ`. -/
def toIsoString (ms : Nat) : JStr :=
  isoDateChars (ms / msPerDay) ++
    'T' :: pad2Chars (ms % msPerDay / 3600000) ++
    ':' :: pad2Chars (ms % 3600000 / 60000) ++
    ':' :: pad2Chars (ms % 60000 / 1000) ++
    '.' :: pad3Chars (ms % 1000) ++ ['Z']

/-- The source's `getTomorrowDateString()`: the ISO string of the next UTC
midnight after the clock value (`setUTCDate(getUTCDate() + 1)` then
`setUTCHours(0,0,0,0)`). -/
def getTomorrowDateString (nowMs : Nat) : JStr :=
  toIsoString ((nowMs / msPerDay + 1) * msPerDay)

/-! ## Data model: roles and user records (`user-store.types.ts`) -/

/-- The closed role set of `user-store.types.ts`. -/
inductive UserRole
  | owner
  | vip
  | subscriber
  | trial
  | expired
deriving DecidableEq

/-- Subscription plans (`user-store.types.ts`). -/
inductive SubscriptionPlan
  | starter
  | premium
deriving DecidableEq

/-- A user record (`UserRecord` in `user-store.types.ts`).  Nullable / optional
fields become `Option`; `totalCostUsd` is a JavaScript number and is modelled
as a rational. -/
structure UserRecord where
  telegramUserId : Nat
  username : Option JStr
  firstName : Option JStr
  lastName : Option JStr
  role : UserRole
  createdAt : Nat
  updatedAt : Option Nat
  trialExpiresAt : Option Nat
  subscriptionPlan : Option SubscriptionPlan
  subscriptionExpiresAt : Option Nat
  subscriptionChargeId : Option JStr
  autoRenew : Option Bool
  invitedBy : Option Nat
  inviteCode : Option JStr
  messagesUsedToday : Nat
  lastMessageDate : JStr
  totalMessagesUsed : Nat
  totalTokensUsed : Nat
  totalCostUsd : Rat
deriving DecidableEq

/-! ## Role and limit policy (`user-roles.ts`) -/

/-- The source's `number | "unlimited"` result type of `getRoleMessageLimit`. -/
inductive RoleMessageLimit
  | unlimited
  | limit (n : Nat)
deriving DecidableEq

def TRIAL_MESSAGES_PER_DAY : Nat := 20

def EXPIRED_MESSAGES_PER_DAY : Nat := 2

/-- `getRoleMessageLimit` from `user-roles.ts`. -/
def getRoleMessageLimit : UserRole → RoleMessageLimit
  | .owner => .unlimited
  | .vip => .unlimited
  | .subscriber => .unlimited
  | .trial => .limit TRIAL_MESSAGES_PER_DAY
  | .expired => .limit EXPIRED_MESSAGES_PER_DAY

/-- `hasUnlimitedAccess` from `user-roles.ts`. -/
def hasUnlimitedAccess (user : UserRecord) : Bool :=
  match user.role with
  | .owner => true
  | .vip => true
  | .subscriber => true
  | _ => false

/-! ## Access decision engine (`access-control.ts`) -/

/-- The source's `AccessCheckResult` discriminated union. -/
inductive AccessCheckResult
  | allow
  | limitExceeded (remaining : Nat) (resetsAt : JStr)
  | trialExpired (expiresAt : JStr)
  | subscriptionExpired (expiresAt : JStr)
deriving DecidableEq

/-- The daily-limit tail of `canSendMessage`: look up the role limit, apply the
lazy daily reset (a stored counter only counts when `lastMessageDate` is
today), and compare against the limit.  A denial carries `remaining = 0` and
`resetsAt = getTomorrowDateString()`. -/
def dailyLimitCheck (user : UserRecord) (now : Nat) : AccessCheckResult :=
  match getRoleMessageLimit user.role with
  | .unlimited => .allow
  | .limit limit =>
    let today := getTodayDateString now
    let messagesUsedToday := if user.lastMessageDate = today then user.messagesUsedToday else 0
    if messagesUsedToday ≥ limit then .limitExceeded 0 (getTomorrowDateString now)
    else .allow

/-- The unlimited-access shortcut of `canSendMessage`, followed by the daily
limit logic. -/
def unlimitedOrDaily (user : UserRecord) (now : Nat) : AccessCheckResult :=
  if hasUnlimitedAccess user then .allow else dailyLimitCheck user now

/-- The subscription-expiry gate of `canSendMessage`.  The source guards with
`user.role === "subscriber" && user.subscriptionExpiresAt`, so a stored expiry
of `0` (a falsy JavaScript number) skips the gate. -/
def subscriptionGate (user : UserRecord) (now : Nat) : AccessCheckResult :=
  match user.role, user.subscriptionExpiresAt with
  | .subscriber, some s =>
    if s ≠ 0 ∧ now > s then .subscriptionExpired (toIsoString s)
    else unlimitedOrDaily user now
  | _, _ => unlimitedOrDaily user now

/-- `canSendMessage` from `access-control.ts`, with the ambient `Date.now()`
made explicit.  The trial-expiry gate runs first (before the unlimited-access
shortcut); its guard `user.role === "trial" && user.trialExpiresAt` again
treats a stored expiry of `0` as absent (JavaScript truthiness). -/
def canSendMessage (user : UserRecord) (now : Nat) : AccessCheckResult :=
  match user.role, user.trialExpiresAt with
  | .trial, some t =>
    if t ≠ 0 ∧ now > t then .trialExpired (toIsoString t)
    else subscriptionGate user now
  | _, _ => subscriptionGate user now

/-! ## Access decision engine: theorems (claims C1, C2, C3) -/

/-- C1 (amended).  For a `trial` record whose `trialExpiresAt` is set to a
nonzero timestamp strictly in the past, `canSendMessage` returns
`Deny(trial_expired)` carrying the ISO string of that expiry — for every
record, hence in particular regardless of `messagesUsedToday` and before any
unlimited-access or daily-limit logic can run. -/
theorem canSendMessage_trial_expired (u : UserRecord) (now t : Nat)
    (hrole : u.role = .trial) (hset : u.trialExpiresAt = some t) (hnz : t ≠ 0)
    (hpast : t < now) :
    canSendMessage u now = .trialExpired (toIsoString t) := by
  simp only [canSendMessage, hrole, hset]
  simp [hnz, hpast]

/-- A concrete record exercising `canSendMessage_trial_expired`. -/
def c1TrialUser : UserRecord :=
  { telegramUserId := 7, username := none, firstName := none, lastName := none,
    role := .trial, createdAt := 1699000000000, updatedAt := none,
    trialExpiresAt := some 1699999999999, subscriptionPlan := none,
    subscriptionExpiresAt := none, subscriptionChargeId := none, autoRenew := none,
    invitedBy := none, inviteCode := none, messagesUsedToday := 0,
    lastMessageDate := getTodayDateString 1700000000000, totalMessagesUsed := 0,
    totalTokensUsed := 0, totalCostUsd := 0 }

/-- Witness for C1: the concrete expired-trial record with zero usage is denied
with reason `trial_expired`. -/
theorem canSendMessage_trial_expired_witness :
    canSendMessage c1TrialUser 1700000000000 = .trialExpired (toIsoString 1699999999999) :=
  canSendMessage_trial_expired c1TrialUser 1700000000000 1699999999999 rfl rfl
    (by decide) (by norm_num)

/-- C1, counterexample to the claim as stated.  A `trial` record whose
`trialExpiresAt` is the set timestamp `0` — which is strictly in the past for
any positive clock — is *not* denied with `trial_expired`: the source guards
the check with the JavaScript truthiness test `user.trialExpiresAt`, and the
number `0` is falsy, so the check is skipped and the fresh record is allowed. -/
def c1ZeroExpiryUser : UserRecord :=
  { telegramUserId := 7, username := none, firstName := none, lastName := none,
    role := .trial, createdAt := 1699000000000, updatedAt := none,
    trialExpiresAt := some 0, subscriptionPlan := none,
    subscriptionExpiresAt := none, subscriptionChargeId := none, autoRenew := none,
    invitedBy := none, inviteCode := none, messagesUsedToday := 0,
    lastMessageDate := getTodayDateString 1700000000000, totalMessagesUsed := 0,
    totalTokensUsed := 0, totalCostUsd := 0 }

/-- The counterexample record has role `trial`, a set expiry `0` strictly in
the past of the clock, zero usage — and is allowed, not denied. -/
theorem canSendMessage_trial_expired_counterexample :
    c1ZeroExpiryUser.role = .trial ∧ c1ZeroExpiryUser.trialExpiresAt = some 0 ∧
    (0 : Nat) < 1700000000000 ∧ c1ZeroExpiryUser.messagesUsedToday = 0 ∧
    canSendMessage c1ZeroExpiryUser 1700000000000 = .allow := by
  refine ⟨rfl, rfl, by norm_num, rfl, ?_⟩
  decide

/-- C2.  Owners and VIPs are always allowed, and so is a subscriber whose
`subscriptionExpiresAt` is absent or not yet passed — regardless of
`messagesUsedToday` and `lastMessageDate`, which the relevant paths never
read. -/
theorem canSendMessage_unlimited_roles (u : UserRecord) (now : Nat)
    (h : u.role = .owner ∨ u.role = .vip ∨
      (u.role = .subscriber ∧ (u.subscriptionExpiresAt = none ∨
        ∃ s, u.subscriptionExpiresAt = some s ∧ now ≤ s))) :
    canSendMessage u now = .allow := by
  rcases h with h | h | ⟨h, hs⟩
  · simp [canSendMessage, subscriptionGate, unlimitedOrDaily, hasUnlimitedAccess, h]
  · simp [canSendMessage, subscriptionGate, unlimitedOrDaily, hasUnlimitedAccess, h]
  · rcases hs with hs | ⟨s, hs, hle⟩
    · simp [canSendMessage, subscriptionGate, unlimitedOrDaily, hasUnlimitedAccess, h, hs]
    · simp [canSendMessage, subscriptionGate, unlimitedOrDaily, hasUnlimitedAccess, h, hs,
        Nat.not_lt.mpr hle]

/-- Witness for C2: a VIP with an absurdly large used-today counter and a stale
date is still allowed. -/
theorem canSendMessage_unlimited_roles_witness :
    canSendMessage
      { telegramUserId := 9, username := none, firstName := none, lastName := none,
        role := .vip, createdAt := 0, updatedAt := none, trialExpiresAt := none,
        subscriptionPlan := none, subscriptionExpiresAt := none,
        subscriptionChargeId := none, autoRenew := none, invitedBy := none,
        inviteCode := none, messagesUsedToday := 999,
        lastMessageDate := getTodayDateString 1700000000000, totalMessagesUsed := 999,
        totalTokensUsed := 0, totalCostUsd := 0 } 1700000000000 = .allow :=
  canSendMessage_unlimited_roles _ 1700000000000 (Or.inr (Or.inl rfl))

/-- C3.  For a bounded-limit record — a `trial` whose set nonzero expiry has
not passed, or an `expired` record — the daily counter resets lazily: when
`lastMessageDate` differs from today's UTC date the record is allowed whatever
the stored counter holds; when it equals today and the stored counter has
reached the role's limit, the record is denied with `limit_exceeded`,
`remaining = 0`, and `resetsAt` the ISO string of the next UTC midnight
(`getTomorrowDateString`). -/
theorem canSendMessage_bounded_daily (u : UserRecord) (now : Nat)
    (hb : (u.role = .trial ∧ ∀ t, u.trialExpiresAt = some t → t ≠ 0 → now ≤ t) ∨
      u.role = .expired) :
    (u.lastMessageDate ≠ getTodayDateString now → canSendMessage u now = .allow) ∧
    (∀ L, getRoleMessageLimit u.role = .limit L →
      u.lastMessageDate = getTodayDateString now → L ≤ u.messagesUsedToday →
      canSendMessage u now = .limitExceeded 0 (getTomorrowDateString now)) := by
  rcases hb with ⟨hrole, hunexp⟩ | hrole
  · cases hte : u.trialExpiresAt with
    | none =>
      constructor
      · intro hdate
        simp [canSendMessage, hrole, hte, subscriptionGate, unlimitedOrDaily,
          hasUnlimitedAccess, dailyLimitCheck, getRoleMessageLimit,
          TRIAL_MESSAGES_PER_DAY, hdate]
      · intro L hL hdate hge
        rw [hrole] at hL
        simp only [getRoleMessageLimit, RoleMessageLimit.limit.injEq] at hL
        simp [canSendMessage, hrole, hte, subscriptionGate, unlimitedOrDaily,
          hasUnlimitedAccess, dailyLimitCheck, getRoleMessageLimit, hdate, hL, hge]
    | some t =>
      have hgate : ¬(t ≠ 0 ∧ now > t) := by
        rcases Nat.eq_zero_or_pos t with h0 | _
        · simp [h0]
        · intro ⟨hnz, hgt⟩
          exact absurd hgt (Nat.not_lt.mpr (hunexp t hte hnz))
      constructor
      · intro hdate
        simp [canSendMessage, hrole, hte, hgate, subscriptionGate, unlimitedOrDaily,
          hasUnlimitedAccess, dailyLimitCheck, getRoleMessageLimit,
          TRIAL_MESSAGES_PER_DAY, hdate]
      · intro L hL hdate hge
        rw [hrole] at hL
        simp only [getRoleMessageLimit, RoleMessageLimit.limit.injEq] at hL
        simp [canSendMessage, hrole, hte, hgate, subscriptionGate, unlimitedOrDaily,
          hasUnlimitedAccess, dailyLimitCheck, getRoleMessageLimit, hdate, hL, hge]
  · constructor
    · intro hdate
      simp [canSendMessage, hrole, subscriptionGate, unlimitedOrDaily,
        hasUnlimitedAccess, dailyLimitCheck, getRoleMessageLimit,
        EXPIRED_MESSAGES_PER_DAY, hdate]
    · intro L hL hdate hge
      rw [hrole] at hL
      simp only [getRoleMessageLimit, RoleMessageLimit.limit.injEq] at hL
      simp [canSendMessage, hrole, subscriptionGate, unlimitedOrDaily,
        hasUnlimitedAccess, dailyLimitCheck, getRoleMessageLimit, hdate, hL, hge]

/-- Witness for C3: an unexpired trial record that hit its limit of 20
yesterday is allowed today (lazy reset), and the same record dated today is
denied with `limit_exceeded` and the next-midnight reset stamp. -/
theorem canSendMessage_bounded_daily_witness :
    canSendMessage
      { telegramUserId := 5, username := none, firstName := none, lastName := none,
        role := .trial, createdAt := 0, updatedAt := none,
        trialExpiresAt := some 1800000000000, subscriptionPlan := none,
        subscriptionExpiresAt := none, subscriptionChargeId := none, autoRenew := none,
        invitedBy := none, inviteCode := none, messagesUsedToday := 20,
        lastMessageDate := getTodayDateString 1699900000000, totalMessagesUsed := 20,
        totalTokensUsed := 0, totalCostUsd := 0 } 1700000000000 = .allow ∧
    canSendMessage
      { telegramUserId := 5, username := none, firstName := none, lastName := none,
        role := .trial, createdAt := 0, updatedAt := none,
        trialExpiresAt := some 1800000000000, subscriptionPlan := none,
        subscriptionExpiresAt := none, subscriptionChargeId := none, autoRenew := none,
        invitedBy := none, inviteCode := none, messagesUsedToday := 20,
        lastMessageDate := getTodayDateString 1700000000000, totalMessagesUsed := 20,
        totalTokensUsed := 0, totalCostUsd := 0 } 1700000000000 =
      .limitExceeded 0 (getTomorrowDateString 1700000000000) := by
  constructor
  · exact (canSendMessage_bounded_daily _ 1700000000000
      (Or.inl ⟨rfl, by intro t ht _; cases ht; decide⟩)).1 (by decide)
  · exact (canSendMessage_bounded_daily _ 1700000000000
      (Or.inl ⟨rfl, by intro t ht _; cases ht; decide⟩)).2 20 rfl rfl (by decide)

/-! ## User record store (`user-store.ts`, JSON and SQLite variants)

The two store implementations agree on the record-level semantics of the
operations the claims touch, so one pure model serves both: the user table is
an association list keyed by telegram user id, read by first match (`Map.get`
/ `PRIMARY KEY` lookup), and written by replacing the keyed entry.  Thrown
errors become `Except` values. -/

/-- Store failures surfaced to callers (`throw new Error(...)` in the source). -/
inductive StoreError
  | userNotFound (id : Nat)
  | userAlreadyExists (id : Nat)
deriving DecidableEq

/-- The persisted user table. -/
abbrev UserStoreState := List (Nat × UserRecord)

/-- `getUser`: first entry with the given key, if any. -/
def UserStore.getUser : UserStoreState → Nat → Option UserRecord
  | [], _ => none
  | (k, u) :: rest, id => if k = id then some u else UserStore.getUser rest id

/-- Replace every entry keyed `id` with the given record (the store holds at
most one, written back by `Map.set` / SQL `UPDATE ... WHERE`). -/
def UserStore.setRecord : UserStoreState → Nat → UserRecord → UserStoreState
  | [], _, _ => []
  | (k, v) :: rest, id, r =>
    (if k = id then (id, r) else (k, v)) :: UserStore.setRecord rest id r

/-- The updatable fields exercised by the embedded call sites, mirroring the
source's `UpdateUserOptions` partial.  The outer `Option` is key presence in
the partial; for `trialExpiresAt` the inner `Option` is the written value
(`null` clears the field). -/
structure UpdateUserOptions where
  role : Option UserRole
  trialExpiresAt : Option (Option Nat)
  messagesUsedToday : Option Nat
  lastMessageDate : Option JStr
  totalMessagesUsed : Option Nat
  totalTokensUsed : Option Nat
  totalCostUsd : Option Rat
deriving DecidableEq

/-- The empty partial. -/
def noUserUpdates : UpdateUserOptions :=
  { role := none, trialExpiresAt := none, messagesUsedToday := none,
    lastMessageDate := none, totalMessagesUsed := none, totalTokensUsed := none,
    totalCostUsd := none }

/-- The spread `{ ...user, ...updates, updatedAt: Date.now() }` of `updateUser`. -/
def applyUserUpdates (u : UserRecord) (up : UpdateUserOptions) (now : Nat) : UserRecord :=
  { u with
    role := up.role.getD u.role,
    trialExpiresAt := up.trialExpiresAt.getD u.trialExpiresAt,
    messagesUsedToday := up.messagesUsedToday.getD u.messagesUsedToday,
    lastMessageDate := up.lastMessageDate.getD u.lastMessageDate,
    totalMessagesUsed := up.totalMessagesUsed.getD u.totalMessagesUsed,
    totalTokensUsed := up.totalTokensUsed.getD u.totalTokensUsed,
    totalCostUsd := up.totalCostUsd.getD u.totalCostUsd,
    updatedAt := some now }

/-- `updateUser`: fails with `NotFound` for an absent id, otherwise merges the
partial, stamps `updatedAt`, and writes the record back. -/
def UserStore.updateUser (st : UserStoreState) (id : Nat) (up : UpdateUserOptions)
    (now : Nat) : Except StoreError (UserRecord × UserStoreState) :=
  match UserStore.getUser st id with
  | none => .error (.userNotFound id)
  | some u =>
    let merged := applyUserUpdates u up now
    .ok (merged, UserStore.setRecord st id merged)

/-- The creation options of `createUser`. -/
structure CreateUserOptions where
  telegramUserId : Nat
  username : Option JStr
  firstName : Option JStr
  lastName : Option JStr
  role : Option UserRole
  trialDays : Option Nat
deriving DecidableEq

/-- The fresh record built by `createUser`: role defaults to `trial`,
`trialExpiresAt` is set (to `now + trialDays` days, `trialDays` defaulting
to 7) exactly when the role is `trial`, counters start at zero and
`lastMessageDate` at today's date. -/
def UserStore.newUserRecord (opts : CreateUserOptions) (now : Nat) : UserRecord :=
  let trialDays := opts.trialDays.getD 7
  let role := opts.role.getD .trial
  { telegramUserId := opts.telegramUserId, username := opts.username,
    firstName := opts.firstName, lastName := opts.lastName, role := role,
    createdAt := now, updatedAt := none,
    trialExpiresAt := if role = .trial then some (now + trialDays * msPerDay) else none,
    subscriptionPlan := none, subscriptionExpiresAt := none,
    subscriptionChargeId := none, autoRenew := none, invitedBy := none,
    inviteCode := none, messagesUsedToday := 0,
    lastMessageDate := getTodayDateString now, totalMessagesUsed := 0,
    totalTokensUsed := 0, totalCostUsd := 0 }

/-- `createUser`: fails with `AlreadyExists` on a duplicate id, otherwise
appends the fresh record. -/
def UserStore.createUser (st : UserStoreState) (opts : CreateUserOptions)
    (now : Nat) : Except StoreError (UserRecord × UserStoreState) :=
  match UserStore.getUser st opts.telegramUserId with
  | some _ => .error (.userAlreadyExists opts.telegramUserId)
  | none =>
    let u := UserStore.newUserRecord opts now
    .ok (u, st ++ [(opts.telegramUserId, u)])

/-- `incrementUsage`: read the record (`NotFound` when absent), apply the lazy
daily reset, then write back all four counters plus `lastMessageDate = today`
through `updateUser`. -/
def UserStore.incrementUsage (st : UserStoreState) (id tokensUsed : Nat)
    (costUsd : Rat) (now : Nat) : Except StoreError UserStoreState :=
  match UserStore.getUser st id with
  | none => .error (.userNotFound id)
  | some user =>
    let today := getTodayDateString now
    let messagesUsedToday := if user.lastMessageDate = today then user.messagesUsedToday else 0
    match UserStore.updateUser st id { noUserUpdates with
        messagesUsedToday := some (messagesUsedToday + 1),
        totalMessagesUsed := some (user.totalMessagesUsed + 1),
        totalTokensUsed := some (user.totalTokensUsed + tokensUsed),
        totalCostUsd := some (user.totalCostUsd + costUsd),
        lastMessageDate := some today } now with
    | .error e => .error e
    | .ok (_, st') => .ok st'

/-! ### Store lemmas -/

theorem UserStore.getUser_setRecord_self (st : UserStoreState) (id : Nat)
    (u r : UserRecord) (h : UserStore.getUser st id = some u) :
    UserStore.getUser (UserStore.setRecord st id r) id = some r := by
  induction st with
  | nil => simp [UserStore.getUser] at h
  | cons p rest ih =>
    obtain ⟨k, v⟩ := p
    rw [UserStore.setRecord]
    by_cases hk : k = id
    · rw [if_pos hk, UserStore.getUser, if_pos rfl]
    · rw [UserStore.getUser, if_neg hk] at h
      rw [if_neg hk, UserStore.getUser, if_neg hk]
      exact ih h

theorem UserStore.getUser_setRecord_other (st : UserStoreState) (id j : Nat)
    (r : UserRecord) (h : j ≠ id) :
    UserStore.getUser (UserStore.setRecord st id r) j = UserStore.getUser st j := by
  induction st with
  | nil => rw [UserStore.setRecord]
  | cons p rest ih =>
    obtain ⟨k, v⟩ := p
    rw [UserStore.setRecord]
    by_cases hk : k = id
    · rw [if_pos hk, UserStore.getUser, if_neg (Ne.symm h), ih,
        UserStore.getUser, if_neg (by rw [hk]; exact Ne.symm h)]
    · rw [if_neg hk, UserStore.getUser, UserStore.getUser]
      by_cases hkj : k = j
      · rw [if_pos hkj, if_pos hkj]
      · rw [if_neg hkj, if_neg hkj, ih]

/-! ### Claim C4: `incrementUsage` -/

/-- C4.  For an existing id, `incrementUsage(id, tokens, cost)` applies the
lazy daily reset and writes back `messagesUsedToday = effective + 1`, bumps
the three lifetime counters, sets `lastMessageDate = today` (stamping
`updatedAt` through `updateUser`), and leaves every other id untouched; for an
absent id it fails with the not-found error and returns no new state. -/
theorem incrementUsage_spec (st : UserStoreState) (id tokensUsed : Nat)
    (costUsd : Rat) (now : Nat) :
    (UserStore.getUser st id = none →
      UserStore.incrementUsage st id tokensUsed costUsd now =
        .error (.userNotFound id)) ∧
    (∀ u, UserStore.getUser st id = some u →
      ∃ st', UserStore.incrementUsage st id tokensUsed costUsd now = .ok st' ∧
        UserStore.getUser st' id = some { u with
          messagesUsedToday :=
            (if u.lastMessageDate = getTodayDateString now
              then u.messagesUsedToday else 0) + 1,
          totalMessagesUsed := u.totalMessagesUsed + 1,
          totalTokensUsed := u.totalTokensUsed + tokensUsed,
          totalCostUsd := u.totalCostUsd + costUsd,
          lastMessageDate := getTodayDateString now,
          updatedAt := some now } ∧
        ∀ j, j ≠ id → UserStore.getUser st' j = UserStore.getUser st j) := by
  constructor
  · intro h
    simp [UserStore.incrementUsage, h]
  · intro u hu
    refine ⟨UserStore.setRecord st id (applyUserUpdates u
      { noUserUpdates with
        messagesUsedToday := some ((if u.lastMessageDate = getTodayDateString now
          then u.messagesUsedToday else 0) + 1),
        totalMessagesUsed := some (u.totalMessagesUsed + 1),
        totalTokensUsed := some (u.totalTokensUsed + tokensUsed),
        totalCostUsd := some (u.totalCostUsd + costUsd),
        lastMessageDate := some (getTodayDateString now) } now), ?_, ?_, ?_⟩
    · simp [UserStore.incrementUsage, UserStore.updateUser, hu]
    · rw [UserStore.getUser_setRecord_self st id u _ hu]
      simp [applyUserUpdates, noUserUpdates]
    · intro j hj
      exact UserStore.getUser_setRecord_other st id j _ hj

/-- Witness for C4: a one-user store with yesterday's date on the counter; the
increment resets to 1, bumps lifetime counters, restamps the date, and a
missing id errors. -/
theorem incrementUsage_spec_witness :
    (UserStore.incrementUsage [(5, c1TrialUser)] 6 100 (1/4) 1700000000000 =
      .error (.userNotFound 6)) ∧
    ∃ st', UserStore.incrementUsage [(5, c1TrialUser)] 5 100 (1/4) 1700000000000 =
        .ok st' ∧
      UserStore.getUser st' 5 = some { c1TrialUser with
        messagesUsedToday := 1, totalMessagesUsed := 1, totalTokensUsed := 100,
        totalCostUsd := 1/4, lastMessageDate := getTodayDateString 1700000000000,
        updatedAt := some 1700000000000 } := by
  constructor
  · exact (incrementUsage_spec [(5, c1TrialUser)] 6 100 (1/4) 1700000000000).1 (by decide)
  · obtain ⟨st', h1, h2, -⟩ :=
      (incrementUsage_spec [(5, c1TrialUser)] 5 100 (1/4) 1700000000000).2
        c1TrialUser (by decide)
    refine ⟨st', h1, ?_⟩
    rw [h2]
    simp [c1TrialUser]

/-! ## Owner/admin bootstrap (`owner-config.ts` and
`SubscriptionStore.ensureOwnerUsers`) -/

/-- One iteration of `initializeOwners`: fetch the record; update the role to
`owner` when it differs (note: only the role — the source passes no
`trialExpiresAt` in this update); create a fresh owner record when absent.
The error arms are unreachable (the guards make the store calls succeed) and
return the state unchanged. -/
def initializeOwnerStep (st : UserStoreState) (id : Nat) (now : Nat) : UserStoreState :=
  match UserStore.getUser st id with
  | some existing =>
    if existing.role ≠ .owner then
      match UserStore.updateUser st id { noUserUpdates with role := some .owner } now with
      | .ok (_, st') => st'
      | .error _ => st
    else st
  | none =>
    match UserStore.createUser st
      { telegramUserId := id, username := none, firstName := none, lastName := none,
        role := some .owner, trialDays := none } now with
    | .ok (_, st') => st'
    | .error _ => st

/-- `initializeOwners` from `owner-config.ts` (the empty-list early return
coincides with the empty fold). -/
def initializeOwners (st : UserStoreState) (adminIds : List Nat) (now : Nat) :
    UserStoreState :=
  adminIds.foldl (fun acc id => initializeOwnerStep acc id now) st

/-- The row inserted by the `ensureOwnerUsers` upsert for a missing admin id:
only id, role `owner`, `created_at`, `updated_at` and `last_message_date` are
supplied; every other column takes its schema default (`NULL` / `0`). -/
def freshOwnerRecord (id : Nat) (now : Nat) (today : JStr) : UserRecord :=
  { telegramUserId := id, username := none, firstName := none, lastName := none,
    role := .owner, createdAt := now, updatedAt := some now, trialExpiresAt := none,
    subscriptionPlan := none, subscriptionExpiresAt := none,
    subscriptionChargeId := none, autoRenew := none, invitedBy := none,
    inviteCode := none, messagesUsedToday := 0, lastMessageDate := today,
    totalMessagesUsed := 0, totalTokensUsed := 0, totalCostUsd := 0 }

/-- The `INSERT ... ON CONFLICT(telegram_user_id) DO UPDATE` of
`ensureOwnerUsers`: insert the fresh owner row, or force `role = 'owner'`,
`trial_expires_at = NULL` and restamp `updated_at` on the existing row. -/
def upsertOwner (st : UserStoreState) (id : Nat) (now : Nat) (today : JStr) :
    UserStoreState :=
  match UserStore.getUser st id with
  | none => st ++ [(id, freshOwnerRecord id now today)]
  | some u => UserStore.setRecord st id
      { u with role := .owner, trialExpiresAt := none, updatedAt := some now }

/-- `SubscriptionStore.ensureOwnerUsers`: the upsert applied to every admin id
in one transaction, with `now` and `today` read once from the clock. -/
def SubscriptionStore.ensureOwnerUsers (st : UserStoreState) (adminIds : List Nat)
    (now : Nat) : UserStoreState :=
  adminIds.foldl (fun acc id => upsertOwner acc id now (getTodayDateString now)) st

/-! ### Lemmas about lookup, append and setRecord -/

theorem UserStore.getUser_append (st st2 : UserStoreState) (j : Nat) :
    UserStore.getUser (st ++ st2) j =
      match UserStore.getUser st j with
      | some u => some u
      | none => UserStore.getUser st2 j := by
  induction st with
  | nil => simp [UserStore.getUser]
  | cons p rest ih =>
    obtain ⟨k, v⟩ := p
    by_cases hk : k = j
    · simp [UserStore.getUser, hk]
    · simp only [List.cons_append, UserStore.getUser, if_neg hk]
      exact ih

theorem UserStore.not_mem_of_getUser_none (st : UserStoreState) (id : Nat)
    (h : UserStore.getUser st id = none) : ∀ p ∈ st, p.1 ≠ id := by
  induction st with
  | nil => simp
  | cons p rest ih =>
    obtain ⟨k, v⟩ := p
    by_cases hk : k = id
    · rw [UserStore.getUser, if_pos hk] at h
      exact absurd h (by simp)
    · rw [UserStore.getUser, if_neg hk] at h
      intro q hq
      rcases List.mem_cons.mp hq with rfl | hq
      · exact hk
      · exact ih h q hq

theorem UserStore.mem_setRecord_keyed (st : UserStoreState) (id : Nat)
    (r : UserRecord) : ∀ p ∈ UserStore.setRecord st id r, p.1 = id → p = (id, r) := by
  induction st with
  | nil => simp [UserStore.setRecord]
  | cons q rest ih =>
    obtain ⟨k, v⟩ := q
    rw [UserStore.setRecord]
    intro p hp hpid
    rcases List.mem_cons.mp hp with rfl | hp
    · by_cases hk : k = id
      · rw [if_pos hk]
      · rw [if_neg hk] at hpid ⊢
        exact absurd hpid hk
    · exact ih p hp hpid

theorem UserStore.mem_setRecord_other (st : UserStoreState) (id : Nat)
    (r : UserRecord) : ∀ p ∈ UserStore.setRecord st id r, p.1 ≠ id → p ∈ st := by
  induction st with
  | nil => simp [UserStore.setRecord]
  | cons q rest ih =>
    obtain ⟨k, v⟩ := q
    rw [UserStore.setRecord]
    intro p hp hpid
    rcases List.mem_cons.mp hp with rfl | hp
    · by_cases hk : k = id
      · rw [if_pos hk] at hpid
        exact absurd rfl hpid
      · rw [if_neg hk]
        exact List.mem_cons_self _ _
    · exact List.mem_cons_of_mem _ (ih p hp hpid)

theorem UserStore.setRecord_eq_self (st : UserStoreState) (id : Nat)
    (r : UserRecord) (h : ∀ p ∈ st, p.1 = id → p.2 = r) :
    UserStore.setRecord st id r = st := by
  induction st with
  | nil => rw [UserStore.setRecord]
  | cons q rest ih =>
    obtain ⟨k, v⟩ := q
    rw [UserStore.setRecord]
    have htail : UserStore.setRecord rest id r = rest :=
      ih (fun p hp => h p (List.mem_cons_of_mem _ hp))
    by_cases hk : k = id
    · have hv : v = r := h (k, v) (List.mem_cons_self _ _) hk
      rw [if_pos hk, htail, hk, hv]
    · rw [if_neg hk, htail]

/-! ### Reconciliation invariants -/

/-- The state `ensureOwnerUsers` leaves behind for one admin id: a looked-up
record with role `owner`, cleared trial expiry, `updatedAt` stamped with the
run's clock — and every entry keyed by the id holding exactly that record. -/
def ensuredOwnerAt (st : UserStoreState) (id : Nat) (now : Nat) : Prop :=
  ∃ r, UserStore.getUser st id = some r ∧ r.role = .owner ∧
    r.trialExpiresAt = none ∧ r.updatedAt = some now ∧
    ∀ p ∈ st, p.1 = id → p.2 = r

theorem upsertOwner_establishes (st : UserStoreState) (id now : Nat) (today : JStr) :
    ensuredOwnerAt (upsertOwner st id now today) id now := by
  rw [upsertOwner]
  cases hget : UserStore.getUser st id with
  | none =>
    refine ⟨freshOwnerRecord id now today, ?_, rfl, rfl, rfl, ?_⟩
    · rw [UserStore.getUser_append, hget]
      simp [UserStore.getUser]
    · intro p hp hpid
      rcases List.mem_append.mp hp with hp | hp
      · exact absurd hpid (UserStore.not_mem_of_getUser_none st id hget p hp)
      · simp only [List.mem_singleton] at hp
        rw [hp]
  | some u =>
    refine ⟨_, UserStore.getUser_setRecord_self st id u _ hget, rfl, rfl, rfl, ?_⟩
    intro p hp hpid
    have := UserStore.mem_setRecord_keyed st id _ p hp hpid
    rw [this]

theorem upsertOwner_preserves (st : UserStoreState) (id id2 now now2 : Nat)
    (today : JStr) (h : ensuredOwnerAt st id now) :
    ensuredOwnerAt (upsertOwner st id2 now2 today) id
      (if id2 = id then now2 else now) := by
  obtain ⟨r, hget, hrole, htrial, hupd, hall⟩ := h
  by_cases hid : id2 = id
  · subst hid
    rw [if_pos rfl, upsertOwner, hget]
    refine ⟨_, UserStore.getUser_setRecord_self st id2 r _ hget, rfl, rfl, rfl, ?_⟩
    intro p hp hpid
    have := UserStore.mem_setRecord_keyed st id2 _ p hp hpid
    rw [this]
  · rw [if_neg hid, upsertOwner]
    cases hget2 : UserStore.getUser st id2 with
    | none =>
      refine ⟨r, ?_, hrole, htrial, hupd, ?_⟩
      · rw [UserStore.getUser_append, hget]
      · intro p hp hpid
        rcases List.mem_append.mp hp with hp | hp
        · exact hall p hp hpid
        · simp only [List.mem_singleton] at hp
          rw [hp] at hpid
          exact absurd hpid hid
    | some u2 =>
      refine ⟨r, ?_, hrole, htrial, hupd, ?_⟩
      · rw [UserStore.getUser_setRecord_other st id2 id _ (fun hh => hid hh.symm), hget]
      · intro p hp hpid
        have hpne : p.1 ≠ id2 := by rw [hpid]; exact fun hh => hid hh.symm
        exact hall p (UserStore.mem_setRecord_other st id2 _ p hp hpne) hpid

/-- A second upsert for an already-ensured id at the same clock is a no-op. -/
theorem upsertOwner_idem (st : UserStoreState) (id now : Nat) (today : JStr)
    (h : ensuredOwnerAt st id now) : upsertOwner st id now today = st := by
  obtain ⟨r, hget, hrole, htrial, hupd, hall⟩ := h
  simp only [upsertOwner, hget]
  have hsame : ({ r with role := UserRole.owner, trialExpiresAt := none,
                         updatedAt := some now } : UserRecord) = r := by
    cases r
    simp_all
  rw [hsame]
  exact UserStore.setRecord_eq_self st id r hall

theorem ensureOwnerUsers_fold_preserves (ids : List Nat) (st : UserStoreState)
    (id now : Nat) (h : ensuredOwnerAt st id now) :
    ensuredOwnerAt
      (ids.foldl (fun acc i => upsertOwner acc i now (getTodayDateString now)) st)
      id now := by
  induction ids generalizing st with
  | nil => exact h
  | cons a rest ih =>
    have step := upsertOwner_preserves st id a now now (getTodayDateString now) h
    rw [ite_self] at step
    simp only [List.foldl_cons]
    exact ih _ step

theorem ensureOwnerUsers_ensures (st : UserStoreState) (ids : List Nat)
    (id now : Nat) (hmem : id ∈ ids) :
    ensuredOwnerAt (SubscriptionStore.ensureOwnerUsers st ids now) id now := by
  rw [SubscriptionStore.ensureOwnerUsers]
  induction ids generalizing st with
  | nil => exact absurd hmem (List.not_mem_nil _)
  | cons a rest ih =>
    rcases List.mem_cons.mp hmem with rfl | hmem
    · simp only [List.foldl_cons]
      exact ensureOwnerUsers_fold_preserves rest _ id now
        (upsertOwner_establishes st id now (getTodayDateString now))
    · simp only [List.foldl_cons]
      exact ih _ hmem

theorem ensureOwnerUsers_fold_idem (ids : List Nat) (st : UserStoreState)
    (now : Nat) (h : ∀ id ∈ ids, ensuredOwnerAt st id now) :
    ids.foldl (fun acc i => upsertOwner acc i now (getTodayDateString now)) st = st := by
  induction ids with
  | nil => rfl
  | cons a rest ih =>
    simp only [List.foldl_cons]
    rw [upsertOwner_idem st a now (getTodayDateString now) (h a (List.mem_cons_self _ _))]
    exact ih (fun id hid => h id (List.mem_cons_of_mem _ hid))

/-- What `initializeOwners` guarantees per admin id: a record exists and its
role is `owner`.  (It does not clear `trialExpiresAt` — see the claim C8
counterexample.) -/
def ownerRoleAt (st : UserStoreState) (id : Nat) : Prop :=
  ∃ u, UserStore.getUser st id = some u ∧ u.role = .owner

theorem initializeOwnerStep_establishes (st : UserStoreState) (id now : Nat) :
    ownerRoleAt (initializeOwnerStep st id now) id := by
  rw [initializeOwnerStep]
  cases hget : UserStore.getUser st id with
  | none =>
    simp only [UserStore.createUser, hget]
    refine ⟨UserStore.newUserRecord
      { telegramUserId := id, username := none, firstName := none, lastName := none,
        role := some .owner, trialDays := none } now, ?_, rfl⟩
    rw [UserStore.getUser_append, hget]
    simp [UserStore.getUser]
  | some existing =>
    by_cases hrole : existing.role = .owner
    · simpa [hrole] using ⟨existing, hget, hrole⟩
    · simp only [ne_eq, hrole, not_false_iff, if_true, UserStore.updateUser, hget]
      refine ⟨applyUserUpdates existing { noUserUpdates with role := some .owner } now,
        UserStore.getUser_setRecord_self st id existing _ hget, by
          simp [applyUserUpdates, noUserUpdates]⟩

theorem initializeOwnerStep_preserves (st : UserStoreState) (id id2 now : Nat)
    (h : ownerRoleAt st id) : ownerRoleAt (initializeOwnerStep st id2 now) id := by
  obtain ⟨u, hget, hrole⟩ := h
  by_cases hid : id2 = id
  · subst hid
    rw [initializeOwnerStep, hget]
    simp [hrole, ownerRoleAt, hget]
  · rw [initializeOwnerStep]
    cases hget2 : UserStore.getUser st id2 with
    | none =>
      simp only [UserStore.createUser, hget2]
      refine ⟨u, ?_, hrole⟩
      rw [UserStore.getUser_append, hget]
    | some existing =>
      by_cases hrole2 : existing.role = .owner
      · simpa [hrole2] using ⟨u, hget, hrole⟩
      · simp only [ne_eq, hrole2, not_false_iff, if_true, UserStore.updateUser, hget2]
        exact ⟨u, by
          rw [UserStore.getUser_setRecord_other st id2 id _ (fun hh => hid hh.symm)]
          exact hget, hrole⟩

/-- A repeated step for an id that already holds `owner` is a strict no-op
(the source checks `existingUser.role !== "owner"` before writing). -/
theorem initializeOwnerStep_idem (st : UserStoreState) (id now : Nat)
    (h : ownerRoleAt st id) : initializeOwnerStep st id now = st := by
  obtain ⟨u, hget, hrole⟩ := h
  rw [initializeOwnerStep, hget]
  simp [hrole]

theorem initializeOwners_fold_preserves (ids : List Nat) (st : UserStoreState)
    (id now : Nat) (h : ownerRoleAt st id) :
    ownerRoleAt (ids.foldl (fun acc i => initializeOwnerStep acc i now) st) id := by
  induction ids generalizing st with
  | nil => exact h
  | cons a rest ih =>
    simp only [List.foldl_cons]
    exact ih _ (initializeOwnerStep_preserves st id a now h)

theorem initializeOwners_ensures (st : UserStoreState) (ids : List Nat)
    (id now : Nat) (hmem : id ∈ ids) :
    ownerRoleAt (initializeOwners st ids now) id := by
  rw [initializeOwners]
  induction ids generalizing st with
  | nil => exact absurd hmem (List.not_mem_nil _)
  | cons a rest ih =>
    rcases List.mem_cons.mp hmem with rfl | hmem
    · simp only [List.foldl_cons]
      exact initializeOwners_fold_preserves rest _ id now
        (initializeOwnerStep_establishes st id now)
    · simp only [List.foldl_cons]
      exact ih _ hmem

theorem initializeOwners_fold_idem (ids : List Nat) (st : UserStoreState)
    (now : Nat) (h : ∀ id ∈ ids, ownerRoleAt st id) :
    ids.foldl (fun acc i => initializeOwnerStep acc i now) st = st := by
  induction ids with
  | nil => rfl
  | cons a rest ih =>
    simp only [List.foldl_cons]
    rw [initializeOwnerStep_idem st a now (h a (List.mem_cons_self _ _))]
    exact ih (fun id hid => h id (List.mem_cons_of_mem _ hid))

theorem ensureOwnerUsers_idem (st : UserStoreState) (ids : List Nat) (now : Nat)
    (h : ∀ id ∈ ids, ensuredOwnerAt st id now) :
    SubscriptionStore.ensureOwnerUsers st ids now = st := by
  rw [SubscriptionStore.ensureOwnerUsers]
  exact ensureOwnerUsers_fold_idem ids st now h

theorem initializeOwners_idem (st : UserStoreState) (ids : List Nat) (now : Nat)
    (h : ∀ id ∈ ids, ownerRoleAt st id) :
    initializeOwners st ids now = st := by
  rw [initializeOwners]
  exact initializeOwners_fold_idem ids st now h

/-! ### Claim C8 -/

/-- C8 (amended).  After `ensureOwnerUsers` runs over the admin list, every
listed id has a record with role `owner` and `trialExpiresAt` cleared, and a
second run with the same unchanged list at the same clock value performs no
state change.  After `initializeOwners` runs, every listed id has a record
with role `owner` (a pre-existing `trialExpiresAt` is retained, not cleared —
see the counterexample), and a second run with the same unchanged list is a
strict no-op at any later clock value. -/
theorem reconcileOwner_spec (st : UserStoreState) (adminIds : List Nat)
    (now now2 : Nat) :
    (∀ id ∈ adminIds, ∃ r,
      UserStore.getUser (SubscriptionStore.ensureOwnerUsers st adminIds now) id =
        some r ∧ r.role = .owner ∧ r.trialExpiresAt = none) ∧
    SubscriptionStore.ensureOwnerUsers
        (SubscriptionStore.ensureOwnerUsers st adminIds now) adminIds now =
      SubscriptionStore.ensureOwnerUsers st adminIds now ∧
    (∀ id ∈ adminIds, ∃ u,
      UserStore.getUser (initializeOwners st adminIds now) id = some u ∧
        u.role = .owner) ∧
    initializeOwners (initializeOwners st adminIds now) adminIds now2 =
      initializeOwners st adminIds now := by
  refine ⟨?_, ?_, ?_, ?_⟩
  · intro id hid
    obtain ⟨r, h1, h2, h3, -, -⟩ := ensureOwnerUsers_ensures st adminIds id now hid
    exact ⟨r, h1, h2, h3⟩
  · exact ensureOwnerUsers_idem _ adminIds now
      (fun id hid => ensureOwnerUsers_ensures st adminIds id now hid)
  · intro id hid
    exact initializeOwners_ensures st adminIds id now hid
  · exact initializeOwners_idem _ adminIds now2
      (fun id hid => initializeOwners_ensures st adminIds id now hid)

/-- Witness for C8: reconciling two fresh admin ids creates owner records with
no trial expiry, and the repeat runs change nothing. -/
theorem reconcileOwner_spec_witness :
    (∃ r, UserStore.getUser
        (SubscriptionStore.ensureOwnerUsers [] [11, 22] 1700000000000) 11 = some r ∧
      r.role = .owner ∧ r.trialExpiresAt = none) ∧
    SubscriptionStore.ensureOwnerUsers
        (SubscriptionStore.ensureOwnerUsers [] [11, 22] 1700000000000) [11, 22]
        1700000000000 =
      SubscriptionStore.ensureOwnerUsers [] [11, 22] 1700000000000 ∧
    initializeOwners (initializeOwners [] [11, 22] 1700000000000) [11, 22]
        1700000000001 =
      initializeOwners [] [11, 22] 1700000000000 := by
  obtain ⟨h1, h2, -, h4⟩ :=
    reconcileOwner_spec [] [11, 22] 1700000000000 1700000000001
  exact ⟨h1 11 (by simp), h2, h4⟩

/-- The store for the C8 counterexample: the admin-listed user 1 holds role
`trial` with a stale expiry timestamp 5. -/
def c8Store : UserStoreState :=
  [(1, { c1TrialUser with telegramUserId := 1, trialExpiresAt := some 5 })]

/-- C8, counterexample to the claim as stated.  `initializeOwners` promotes
the drifted record to `owner` but retains its stale `trialExpiresAt = 5`
(the claim demands it be cleared); and a second `ensureOwnerUsers` run with
the same unchanged list is not free of state change — it restamps the
record's `updatedAt` with the later clock value. -/
theorem reconcileOwner_counterexample :
    ((UserStore.getUser (initializeOwners c8Store [1] 1700000000000) 1).map
      (fun r => (r.role, r.trialExpiresAt))) = some (.owner, some 5) ∧
    (UserStore.getUser
        (SubscriptionStore.ensureOwnerUsers
          (SubscriptionStore.ensureOwnerUsers c8Store [1] 1000) [1] 2000) 1).map
      (fun r => r.updatedAt) = some (some 2000) ∧
    (UserStore.getUser (SubscriptionStore.ensureOwnerUsers c8Store [1] 1000) 1).map
      (fun r => r.updatedAt) = some (some 1000) := by
  refine ⟨?_, ?_, ?_⟩ <;> decide

/-! ## Burst guard (`bot-message.ts`) -/

/-- Per-identity burst window state (`TrialBurstState` in the source). -/
structure TrialBurstState where
  windowStartedAt : Nat
  messageCount : Nat
  lastWarnAt : Nat
deriving DecidableEq

/-- The three env-configurable knobs of the guard (each clamped to a positive
integer by `readPositiveIntEnv` before use). -/
structure TrialBurstConfig where
  trialBurstWindowMs : Nat
  trialBurstMaxMessages : Nat
  trialBurstWarnCooldownMs : Nat
deriving DecidableEq

def TRIAL_BURST_STATE_MAX_USERS : Nat := 5000

/-- The guard's in-memory `Map` keyed by user id, in insertion order. -/
abbrev BurstMap := List (Nat × TrialBurstState)

def burstGet : BurstMap → Nat → Option TrialBurstState
  | [], _ => none
  | (k, s) :: rest, id => if k = id then some s else burstGet rest id

/-- `Map.set`: overwrite in place when the key exists, append otherwise. -/
def burstSet : BurstMap → Nat → TrialBurstState → BurstMap
  | [], id, s => [(id, s)]
  | (k, v) :: rest, id, s =>
    if k = id then (id, s) :: rest else (k, v) :: burstSet rest id s

/-- The eviction loop body of `pruneTrialBurstState`: walk the entries in
insertion order, delete any entry untouched for longer than `staleAfterMs`,
and stop as soon as the map is back within the cap.  `kept` carries the
retained prefix in reverse. -/
def pruneLoop (now staleAfterMs : Nat) :
    List (Nat × TrialBurstState) → BurstMap → BurstMap
  | kept, [] => kept.reverse
  | kept, (k, s) :: rest =>
    let lastTouch := max s.windowStartedAt s.lastWarnAt
    let kept2 := if now - lastTouch > staleAfterMs then kept else (k, s) :: kept
    if kept2.length + rest.length ≤ TRIAL_BURST_STATE_MAX_USERS then
      kept2.reverse ++ rest
    else pruneLoop now staleAfterMs kept2 rest

/-- `pruneTrialBurstState`: no-op within the cap, otherwise evict stale
entries opportunistically. -/
def pruneTrialBurstState (cfg : TrialBurstConfig) (now : Nat) (m : BurstMap) :
    BurstMap :=
  if m.length ≤ TRIAL_BURST_STATE_MAX_USERS then m
  else
    pruneLoop now
      (max (cfg.trialBurstWindowMs * 4) (cfg.trialBurstWarnCooldownMs * 2)) [] m

/-- `checkTrialBurstAllowance`, with the clock and map state explicit.  The
result pairs `(allowed, shouldWarn)` with the updated map.  A missing entry or
an elapsed window starts a fresh window of count 1 (retaining `lastWarnAt`,
`?? 0` when absent); otherwise the count is bumped and compared against the
max, and a denial warns only when the warning cooldown has passed, restamping
`lastWarnAt` when it does. -/
def checkTrialBurstAllowance (cfg : TrialBurstConfig) (m : BurstMap)
    (currentUserId now : Nat) : (Bool × Bool) × BurstMap :=
  let m := pruneTrialBurstState cfg now m
  match burstGet m currentUserId with
  | none =>
    ((true, false), burstSet m currentUserId
      { windowStartedAt := now, messageCount := 1, lastWarnAt := 0 })
  | some current =>
    if now - current.windowStartedAt ≥ cfg.trialBurstWindowMs then
      ((true, false), burstSet m currentUserId
        { windowStartedAt := now, messageCount := 1, lastWarnAt := current.lastWarnAt })
    else
      let bumped := current.messageCount + 1
      if bumped ≤ cfg.trialBurstMaxMessages then
        ((true, false), burstSet m currentUserId { current with messageCount := bumped })
      else
        let shouldWarn := now - current.lastWarnAt ≥ cfg.trialBurstWarnCooldownMs
        ((false, shouldWarn), burstSet m currentUserId
          (if shouldWarn then { current with messageCount := bumped, lastWarnAt := now }
            else { current with messageCount := bumped }))

/-! ### Claim C9 -/

/-- C9.  With a 60000 ms window and a 2-message maximum, three checks for one
identity inside one window yield allow, allow, deny — the denial warning once
the cooldown allows it, stamping `lastWarnAt`; a fourth check after the window
has elapsed starts a fresh window and allows; and a further denied check
within the warning cooldown of the previous warning does not warn again, so
the warning is emitted at most once per cooldown period. -/
theorem checkTrialBurstAllowance_scenario (u t1 t2 t3 t4 t5 cd : Nat)
    (h12 : t2 - t1 < 60000) (h13 : t3 - t1 < 60000) (hcd : cd ≤ t3)
    (h14 : 60000 ≤ t4 - t1) (h15 : t5 - t1 < 60000) (h35 : t5 - t3 < cd) :
    checkTrialBurstAllowance ⟨60000, 2, cd⟩ [] u t1 =
      ((true, false), [(u, ⟨t1, 1, 0⟩)]) ∧
    checkTrialBurstAllowance ⟨60000, 2, cd⟩ [(u, ⟨t1, 1, 0⟩)] u t2 =
      ((true, false), [(u, ⟨t1, 2, 0⟩)]) ∧
    checkTrialBurstAllowance ⟨60000, 2, cd⟩ [(u, ⟨t1, 2, 0⟩)] u t3 =
      ((false, true), [(u, ⟨t1, 3, t3⟩)]) ∧
    (checkTrialBurstAllowance ⟨60000, 2, cd⟩ [(u, ⟨t1, 3, t3⟩)] u t4).1 =
      (true, false) ∧
    (checkTrialBurstAllowance ⟨60000, 2, cd⟩ [(u, ⟨t1, 3, t3⟩)] u t5).1 =
      (false, false) := by
  refine ⟨?_, ?_, ?_, ?_, ?_⟩
  · simp [checkTrialBurstAllowance, pruneTrialBurstState, TRIAL_BURST_STATE_MAX_USERS,
      burstGet, burstSet]
  · simp [checkTrialBurstAllowance, pruneTrialBurstState, TRIAL_BURST_STATE_MAX_USERS,
      burstGet, burstSet, Nat.not_le.mpr h12]
  · simp [checkTrialBurstAllowance, pruneTrialBurstState, TRIAL_BURST_STATE_MAX_USERS,
      burstGet, burstSet, Nat.not_le.mpr h13, hcd]
  · simp [checkTrialBurstAllowance, pruneTrialBurstState, TRIAL_BURST_STATE_MAX_USERS,
      burstGet, burstSet, h14]
  · simp [checkTrialBurstAllowance, pruneTrialBurstState, TRIAL_BURST_STATE_MAX_USERS,
      burstGet, burstSet, Nat.not_le.mpr h15, Nat.not_le.mpr h35]

/-- Witness for C9 at concrete clock readings. -/
theorem checkTrialBurstAllowance_scenario_witness :
    checkTrialBurstAllowance ⟨60000, 2, 500⟩ [] 42 1000 =
      ((true, false), [(42, ⟨1000, 1, 0⟩)]) ∧
    checkTrialBurstAllowance ⟨60000, 2, 500⟩ [(42, ⟨1000, 1, 0⟩)] 42 1001 =
      ((true, false), [(42, ⟨1000, 2, 0⟩)]) ∧
    checkTrialBurstAllowance ⟨60000, 2, 500⟩ [(42, ⟨1000, 2, 0⟩)] 42 1002 =
      ((false, true), [(42, ⟨1000, 3, 1002⟩)]) ∧
    (checkTrialBurstAllowance ⟨60000, 2, 500⟩ [(42, ⟨1000, 3, 1002⟩)] 42 61001).1 =
      (true, false) ∧
    (checkTrialBurstAllowance ⟨60000, 2, 500⟩ [(42, ⟨1000, 3, 1002⟩)] 42 1003).1 =
      (false, false) :=
  checkTrialBurstAllowance_scenario 42 1000 1001 1002 61001 1003 500
    (by decide) (by decide) (by decide) (by decide) (by decide) (by decide)

/-! ## Message processor access-control block (`bot-message.ts`)

The processor's store and Telegram calls are asynchronous and can throw; each
call site's outcome is supplied here as an oracle of `Except` results, and the
`try`/`catch` around the whole block becomes explicit error propagation into a
caught continuation that logs and dispatches anyway. -/

/-- An opaque thrown JavaScript error (its identity is irrelevant: the catch
block only logs it). -/
inductive JsError
  | thrown
deriving DecidableEq

/-- Outcomes of the async calls the access-control block makes, in source
order: `getUser`, `createUser`, the owner-drift `updateUser`, the denial
notification, the burst warning notification, and `incrementUsage`. -/
structure StoreOracle where
  getUserRes : Except JsError (Option UserRecord)
  createUserRes : Except JsError UserRecord
  updateUserRes : Except JsError UserRecord
  sendDeniedRes : Except JsError Unit
  sendWarnRes : Except JsError Unit
  incrementUsageRes : Except JsError Unit

/-- What the processor did with the message. -/
structure ProcessOutcome where
  dispatched : Bool
  incremented : Bool
  deniedNotified : Bool
  warnNotified : Bool
deriving DecidableEq

/-- `isAdmin` from `owner-config.ts`. -/
def isAdmin (telegramUserId : Nat) (adminIds : List Nat) : Bool :=
  adminIds.contains telegramUserId

/-- The user the block resolves before the access check: the `getUser` /
`createUser` / owner-drift-repair `updateUser` sequence, with the admin role
forced on creation for admin ids and the repair triggered when an admin's
persisted role or trial expiry drifted. -/
def resolveUser (o : StoreOracle) (adminUser : Bool) : Except JsError UserRecord :=
  match o.getUserRes with
  | .error e => .error e
  | .ok none => o.createUserRes
  | .ok (some user) =>
    if adminUser ∧ (user.role ≠ .owner ∨ user.trialExpiresAt ≠ none) then
      o.updateUserRes
    else .ok user

/-- The tail of the block once a user is resolved: access check, burst guard
for `trial`/`expired`, usage increment, dispatch.  Any `.error` is caught:
logged, not rethrown, and the message continues to dispatch. -/
def processResolved (cfg : TrialBurstConfig) (burst : BurstMap) (o : StoreOracle)
    (user : UserRecord) (uid now : Nat) : ProcessOutcome × BurstMap :=
  match canSendMessage user now with
  | .allow =>
    let afterBurst :=
      if user.role = .trial ∨ user.role = .expired then
        let r := checkTrialBurstAllowance cfg burst uid now
        (r.1.1, r.1.2, r.2)
      else (true, false, burst)
    match afterBurst with
    | (false, shouldWarn, burst2) =>
      if shouldWarn then
        match o.sendWarnRes with
        | .ok _ =>
          ({ dispatched := false, incremented := false, deniedNotified := false,
             warnNotified := true }, burst2)
        | .error _ =>
          ({ dispatched := true, incremented := false, deniedNotified := false,
             warnNotified := false }, burst2)
      else
        ({ dispatched := false, incremented := false, deniedNotified := false,
           warnNotified := false }, burst2)
    | (true, _, burst2) =>
      match o.incrementUsageRes with
      | .ok _ =>
        ({ dispatched := true, incremented := true, deniedNotified := false,
           warnNotified := false }, burst2)
      | .error _ =>
        ({ dispatched := true, incremented := false, deniedNotified := false,
           warnNotified := false }, burst2)
  | _ =>
    match o.sendDeniedRes with
    | .ok _ =>
      ({ dispatched := false, incremented := false, deniedNotified := true,
         warnNotified := false }, burst)
    | .error _ =>
      ({ dispatched := true, incremented := false, deniedNotified := false,
         warnNotified := false }, burst)

/-- The access-control block of `createTelegramMessageProcessor`, from the
`userId && enforceAccessControl` guard to the dispatch call.  Messages without
a sender id or outside private chats skip the block entirely and dispatch. -/
def processMessage (adminIds : List Nat) (cfg : TrialBurstConfig) (burst : BurstMap)
    (o : StoreOracle) (userId : Option Nat) (chatIsPrivate : Bool) (now : Nat) :
    ProcessOutcome × BurstMap :=
  match userId with
  | none =>
    ({ dispatched := true, incremented := false, deniedNotified := false,
       warnNotified := false }, burst)
  | some uid =>
    if chatIsPrivate then
      match resolveUser o (isAdmin uid adminIds) with
      | .error _ =>
        ({ dispatched := true, incremented := false, deniedNotified := false,
           warnNotified := false }, burst)
      | .ok user => processResolved cfg burst o user uid now
    else
      ({ dispatched := true, incremented := false, deniedNotified := false,
         warnNotified := false }, burst)

/-! ### Claim C10 -/

/-- C10.  Fail-open: whichever of the block's store operations throws — the
user lookup, the creation, the owner-drift repair, or the usage increment —
the error is caught, the message is still dispatched, and no usage counter is
incremented for it.  The increment case is conditioned on the paths that reach
it: a resolved user, an `Allow` decision, and a burst guard that does not
trip. -/
theorem processMessage_fail_open (adminIds : List Nat) (cfg : TrialBurstConfig)
    (burst : BurstMap) (o : StoreOracle) (uid now : Nat) :
    (o.getUserRes = .error .thrown →
      (processMessage adminIds cfg burst o (some uid) true now).1.dispatched = true ∧
      (processMessage adminIds cfg burst o (some uid) true now).1.incremented = false) ∧
    (o.getUserRes = .ok none → o.createUserRes = .error .thrown →
      (processMessage adminIds cfg burst o (some uid) true now).1.dispatched = true ∧
      (processMessage adminIds cfg burst o (some uid) true now).1.incremented = false) ∧
    (∀ u, o.getUserRes = .ok (some u) → isAdmin uid adminIds = true →
      (u.role ≠ .owner ∨ u.trialExpiresAt ≠ none) → o.updateUserRes = .error .thrown →
      (processMessage adminIds cfg burst o (some uid) true now).1.dispatched = true ∧
      (processMessage adminIds cfg burst o (some uid) true now).1.incremented = false) ∧
    (∀ u, resolveUser o (isAdmin uid adminIds) = .ok u →
      canSendMessage u now = .allow →
      ((u.role = .trial ∨ u.role = .expired) →
        (checkTrialBurstAllowance cfg burst uid now).1.1 = true) →
      o.incrementUsageRes = .error .thrown →
      (processMessage adminIds cfg burst o (some uid) true now).1.dispatched = true ∧
      (processMessage adminIds cfg burst o (some uid) true now).1.incremented = false) := by
  refine ⟨?_, ?_, ?_, ?_⟩
  · intro hg
    simp [processMessage, resolveUser, hg]
  · intro hg hc
    simp [processMessage, resolveUser, hg, hc]
  · intro u hg hadm hdrift hu
    have hres : resolveUser o (isAdmin uid adminIds) = o.updateUserRes := by
      simp only [resolveUser, hg]
      rw [if_pos ⟨hadm, hdrift⟩]
    simp [processMessage, hres, hu]
  · intro u hres hallow hburst hinc
    by_cases hlp : u.role = .trial ∨ u.role = .expired
    · simp [processMessage, processResolved, hres, hallow, hlp, hburst hlp, hinc]
    · simp [processMessage, processResolved, hres, hallow, hlp, hinc]

/-- Witness for C10: a store whose lookup throws still dispatches without an
increment. -/
theorem processMessage_fail_open_witness :
    (processMessage [] ⟨60000, 2, 500⟩ []
      { getUserRes := .error .thrown, createUserRes := .error .thrown,
        updateUserRes := .error .thrown, sendDeniedRes := .ok (),
        sendWarnRes := .ok (), incrementUsageRes := .ok () }
      (some 42) true 1700000000000).1.dispatched = true ∧
    (processMessage [] ⟨60000, 2, 500⟩ []
      { getUserRes := .error .thrown, createUserRes := .error .thrown,
        updateUserRes := .error .thrown, sendDeniedRes := .ok (),
        sendWarnRes := .ok (), incrementUsageRes := .ok () }
      (some 42) true 1700000000000).1.incremented = false :=
  (processMessage_fail_open [] ⟨60000, 2, 500⟩ []
    { getUserRes := .error .thrown, createUserRes := .error .thrown,
      updateUserRes := .error .thrown, sendDeniedRes := .ok (),
      sendWarnRes := .ok (), incrementUsageRes := .ok () } 42 1700000000000).1 rfl

/-! ## Byte-level codecs for the signed state-token protocol

`google-oauth.ts` moves between strings and bytes through `Buffer.from` (UTF-8
encode), `Buffer.prototype.toString("utf8")` (decode), and the `base64url`
encoding; signatures are HMAC-SHA-256 digests.  Bytes are naturals below 256. -/

/-- UTF-8 encoding of one Unicode scalar value. -/
def utf8EncodeChar (c : Char) : List Nat :=
  if c.toNat < 128 then [c.toNat]
  else if c.toNat < 2048 then [192 + c.toNat / 64, 128 + c.toNat % 64]
  else if c.toNat < 65536 then
    [224 + c.toNat / 4096, 128 + c.toNat / 64 % 64, 128 + c.toNat % 64]
  else
    [240 + c.toNat / 262144, 128 + c.toNat / 4096 % 64, 128 + c.toNat / 64 % 64,
      128 + c.toNat % 64]

/-- UTF-8 encoding of a string (`Buffer.from(s)`). -/
def utf8Encode (s : JStr) : List Nat := s.flatMap utf8EncodeChar

/-- Strict UTF-8 decoding, as an incremental byte-state machine in the style
of the WHATWG algorithm: `needed` continuation bytes are still expected,
`sofar` holds the scalar bits read, and `lo`/`hi` bound the next continuation
byte (tightened after an `E0`/`ED`/`F0`/`F4` lead to reject overlong forms and
surrogates).  Node's `toString("utf8")` substitutes U+FFFD for ill-formed
input instead of failing; the two agree on every well-formed byte string,
which covers every encoder output, but on ill-formed bytes Node still
yields a string where this decoder returns `none`, so theorems about the
parse path quantify only over encoder outputs. -/
def utf8DecodeAux : List Nat → Nat → Nat → Nat → Nat → Option JStr
  | [], 0, _, _, _ => some []
  | [], _ + 1, _, _, _ => none
  | b :: bs, 0, _, _, _ =>
    if b < 128 then (utf8DecodeAux bs 0 0 0 0).map (fun r => Char.ofNat b :: r)
    else if b < 194 then none
    else if b < 224 then utf8DecodeAux bs 1 (b - 192) 128 192
    else if b < 240 then
      utf8DecodeAux bs 2 (b - 224) (if b = 224 then 160 else 128)
        (if b = 237 then 160 else 192)
    else if b < 245 then
      utf8DecodeAux bs 3 (b - 240) (if b = 240 then 144 else 128)
        (if b = 244 then 144 else 192)
    else none
  | b :: bs, needed + 1, sofar, lo, hi =>
    if lo ≤ b ∧ b < hi then
      if needed = 0 then
        (utf8DecodeAux bs 0 0 0 0).map
          (fun r => Char.ofNat (sofar * 64 + (b - 128)) :: r)
      else utf8DecodeAux bs needed (sofar * 64 + (b - 128)) 128 192
    else none

/-- UTF-8 decoding of a byte string (`Buffer.prototype.toString("utf8")` on
well-formed input). -/
def utf8Decode (l : List Nat) : Option JStr := utf8DecodeAux l 0 0 0 0

/-- Valid scalar values round-trip through one encoded character. -/
theorem utf8Decode_encodeChar (c : Char) (rest : List Nat) :
    utf8DecodeAux (utf8EncodeChar c ++ rest) 0 0 0 0 =
      (utf8DecodeAux rest 0 0 0 0).map (fun r => c :: r) := by
  have hval : c.toNat < 55296 ∨ (57343 < c.toNat ∧ c.toNat < 1114112) := c.valid
  rw [utf8EncodeChar]
  by_cases h1 : c.toNat < 128
  · rw [if_pos h1]
    simp only [List.cons_append, List.nil_append]
    rw [utf8DecodeAux, if_pos h1, Char.ofNat_toNat]
  · rw [if_neg h1]
    by_cases h2 : c.toNat < 2048
    · rw [if_pos h2]
      simp only [List.cons_append, List.nil_append]
      rw [utf8DecodeAux, if_neg (by omega), if_neg (by omega), if_pos (by omega),
        utf8DecodeAux, if_pos (by constructor <;> omega), if_pos rfl]
      have harith : (192 + c.toNat / 64 - 192) * 64 + (128 + c.toNat % 64 - 128) =
          c.toNat := by omega
      rw [harith, Char.ofNat_toNat]
    · rw [if_neg h2]
      by_cases h3 : c.toNat < 65536
      · rw [if_pos h3]
        simp only [List.cons_append, List.nil_append]
        rw [utf8DecodeAux, if_neg (by omega), if_neg (by omega), if_neg (by omega),
          if_pos (by omega)]
        rw [utf8DecodeAux, if_pos (by constructor <;> (split <;> omega))]
        rw [if_neg (by omega)]
        rw [utf8DecodeAux, if_pos (by constructor <;> omega), if_pos rfl]
        have harith : ((224 + c.toNat / 4096 - 224) * 64 +
            (128 + c.toNat / 64 % 64 - 128)) * 64 + (128 + c.toNat % 64 - 128) =
            c.toNat := by omega
        rw [harith, Char.ofNat_toNat]
      · rw [if_neg h3]
        simp only [List.cons_append, List.nil_append]
        rw [utf8DecodeAux, if_neg (by omega), if_neg (by omega), if_neg (by omega),
          if_neg (by omega), if_pos (by omega)]
        rw [utf8DecodeAux, if_pos (by constructor <;> (split <;> omega))]
        rw [if_neg (by omega)]
        rw [utf8DecodeAux, if_pos (by constructor <;> omega), if_neg (by omega)]
        rw [utf8DecodeAux, if_pos (by constructor <;> omega), if_pos rfl]
        have harith : (((240 + c.toNat / 262144 - 240) * 64 +
            (128 + c.toNat / 4096 % 64 - 128)) * 64 +
            (128 + c.toNat / 64 % 64 - 128)) * 64 + (128 + c.toNat % 64 - 128) =
            c.toNat := by omega
        rw [harith, Char.ofNat_toNat]

/-- Decoding inverts encoding on every string. -/
theorem utf8Decode_encode (s : JStr) : utf8Decode (utf8Encode s) = some s := by
  rw [utf8Decode, utf8Encode]
  induction s with
  | nil => rfl
  | cons c rest ih =>
    rw [List.flatMap_cons, utf8Decode_encodeChar, ih]
    rfl

/-- UTF-8 encoding is injective (it has a left inverse). -/
theorem utf8Encode_injective (s t : JStr) (h : utf8Encode s = utf8Encode t) :
    s = t := by
  have hs := utf8Decode_encode s
  rw [h, utf8Decode_encode t] at hs
  exact (Option.some.injEq _ _).mp hs.symm

/-- The base64url alphabet character for a 6-bit value. -/
def b64UrlChar (n : Nat) : Char :=
  if n < 26 then Char.ofNat (65 + n)
  else if n < 52 then Char.ofNat (97 + (n - 26))
  else if n < 62 then Char.ofNat (48 + (n - 52))
  else if n = 62 then '-'
  else '_'

/-- `Buffer.prototype.toString("base64url")`: unpadded base64url encoding,
three bytes to four characters with a two- or three-character tail. -/
def base64urlEncode : List Nat → List Char
  | [] => []
  | [b0] => [b64UrlChar (b0 / 4), b64UrlChar (b0 % 4 * 16)]
  | [b0, b1] =>
    [b64UrlChar (b0 / 4), b64UrlChar (b0 % 4 * 16 + b1 / 16), b64UrlChar (b1 % 16 * 4)]
  | b0 :: b1 :: b2 :: rest =>
    b64UrlChar (b0 / 4) :: b64UrlChar (b0 % 4 * 16 + b1 / 16) ::
      b64UrlChar (b1 % 16 * 4 + b2 / 64) :: b64UrlChar (b2 % 64) ::
      base64urlEncode rest

/-- The 6-bit value of a base64url character. -/
def b64UrlVal (c : Char) : Option Nat :=
  if 65 ≤ c.toNat ∧ c.toNat ≤ 90 then some (c.toNat - 65)
  else if 97 ≤ c.toNat ∧ c.toNat ≤ 122 then some (c.toNat - 97 + 26)
  else if 48 ≤ c.toNat ∧ c.toNat ≤ 57 then some (c.toNat - 48 + 52)
  else if c = '-' then some 62
  else if c = '_' then some 63
  else none

/-- `Buffer.from(s, "base64url")` on alphabet-only input: four characters to
three bytes with two- or three-character tails (trailing bits dropped, as
Node drops them).  Node is more lenient — it skips characters outside the
alphabet instead of failing — so this strict reading agrees with it exactly
on alphabet-only input, which covers every encoder output; on a payload
segment containing foreign characters Node may still produce bytes where
this decoder returns `none`, so theorems about the parse path quantify
only over encoder outputs. -/
def base64urlDecode : List Char → Option (List Nat)
  | [] => some []
  | [_] => none
  | [c0, c1] =>
    match b64UrlVal c0, b64UrlVal c1 with
    | some v0, some v1 => some [v0 * 4 + v1 / 16]
    | _, _ => none
  | [c0, c1, c2] =>
    match b64UrlVal c0, b64UrlVal c1, b64UrlVal c2 with
    | some v0, some v1, some v2 =>
      some [v0 * 4 + v1 / 16, v1 % 16 * 16 + v2 / 4]
    | _, _, _ => none
  | c0 :: c1 :: c2 :: c3 :: rest =>
    match b64UrlVal c0, b64UrlVal c1, b64UrlVal c2, b64UrlVal c3 with
    | some v0, some v1, some v2, some v3 =>
      (base64urlDecode rest).map
        (fun bs => (v0 * 4 + v1 / 16) :: (v1 % 16 * 16 + v2 / 4) ::
          (v2 % 4 * 64 + v3) :: bs)
    | _, _, _, _ => none

/-- Alphabet values decode back to themselves. -/
theorem b64UrlVal_b64UrlChar : ∀ n, n < 64 → b64UrlVal (b64UrlChar n) = some n := by
  decide

/-- Alphabet characters are ASCII, are not the `.` separator, and are not
JavaScript whitespace. -/
theorem b64UrlChar_plain : ∀ n, n < 64 →
    (b64UrlChar n).toNat < 128 ∧ b64UrlChar n ≠ '.' ∧
      isJsWhitespaceChar (b64UrlChar n) = false := by
  decide

/-- Decoding inverts encoding on byte strings. -/
theorem base64urlDecode_encode : ∀ bs : List Nat, (∀ b ∈ bs, b < 256) →
    base64urlDecode (base64urlEncode bs) = some bs
  | [], _ => rfl
  | [b0], h => by
    have hb0 : b0 < 256 := h b0 (by simp)
    rw [base64urlEncode, base64urlDecode,
      b64UrlVal_b64UrlChar _ (by omega), b64UrlVal_b64UrlChar _ (by omega)]
    simp only [Option.some.injEq, List.cons.injEq, and_true]
    omega
  | [b0, b1], h => by
    have hb0 : b0 < 256 := h b0 (by simp)
    have hb1 : b1 < 256 := h b1 (by simp)
    rw [base64urlEncode, base64urlDecode, b64UrlVal_b64UrlChar _ (by omega),
      b64UrlVal_b64UrlChar _ (by omega), b64UrlVal_b64UrlChar _ (by omega)]
    simp only [Option.some.injEq, List.cons.injEq, and_true]
    constructor <;> omega
  | b0 :: b1 :: b2 :: rest, h => by
    have hb0 : b0 < 256 := h b0 (by simp)
    have hb1 : b1 < 256 := h b1 (by simp)
    have hb2 : b2 < 256 := h b2 (by simp)
    have ih := base64urlDecode_encode rest
      (fun b hb => h b (by simp [hb]))
    rw [base64urlEncode]
    cases hrest : base64urlEncode rest with
    | nil =>
      rw [base64urlDecode, b64UrlVal_b64UrlChar _ (by omega),
        b64UrlVal_b64UrlChar _ (by omega), b64UrlVal_b64UrlChar _ (by omega),
        b64UrlVal_b64UrlChar _ (by omega)]
      rw [hrest] at ih
      simp [ih]
      omega
    | cons x xs =>
      rw [base64urlDecode, b64UrlVal_b64UrlChar _ (by omega),
        b64UrlVal_b64UrlChar _ (by omega), b64UrlVal_b64UrlChar _ (by omega),
        b64UrlVal_b64UrlChar _ (by omega)]
      rw [hrest] at ih
      simp [ih]
      omega

/-! ### SHA-256 and HMAC-SHA-256 (FIPS 180-4 / RFC 2104)

Words are naturals kept below 2^32 by explicit masking. -/

def u32 (n : Nat) : Nat := n % 4294967296

/-- Rotate a 32-bit word right by `r`. -/
def rotr32 (r x : Nat) : Nat := x / 2 ^ r + x % 2 ^ r * 2 ^ (32 - r)

/-- Shift a 32-bit word right by `r`. -/
def shr32 (r x : Nat) : Nat := x / 2 ^ r

/-- Bitwise complement of a 32-bit word. -/
def not32 (x : Nat) : Nat := 4294967295 - x

def sha256Ch (x y z : Nat) : Nat := Nat.xor (Nat.land x y) (Nat.land (not32 x) z)

def sha256Maj (x y z : Nat) : Nat :=
  Nat.xor (Nat.land x y) (Nat.xor (Nat.land x z) (Nat.land y z))

def sha256BigSigma0 (x : Nat) : Nat :=
  Nat.xor (rotr32 2 x) (Nat.xor (rotr32 13 x) (rotr32 22 x))

def sha256BigSigma1 (x : Nat) : Nat :=
  Nat.xor (rotr32 6 x) (Nat.xor (rotr32 11 x) (rotr32 25 x))

def sha256SmallSigma0 (x : Nat) : Nat :=
  Nat.xor (rotr32 7 x) (Nat.xor (rotr32 18 x) (shr32 3 x))

def sha256SmallSigma1 (x : Nat) : Nat :=
  Nat.xor (rotr32 17 x) (Nat.xor (rotr32 19 x) (shr32 10 x))

/-- The working variables a–h of the compression function. -/
structure Sha256State where
  a : Nat
  b : Nat
  c : Nat
  d : Nat
  e : Nat
  f : Nat
  g : Nat
  h : Nat
deriving DecidableEq

def sha256InitState : Sha256State :=
  ⟨1779033703, 3144134277, 1013904242, 2773480762,
   1359893119, 2600822924, 528734635, 1541459225⟩

/-- The 64 round constants. -/
def sha256K : List Nat :=
  [1116352408, 1899447441, 3049323471, 3921009573, 961987163, 1508970993,
   2453635748, 2870763221, 3624381080, 310598401, 607225278, 1426881987,
   1925078388, 2162078206, 2614888103, 3248222580, 3835390401, 4022224774,
   264347078, 604807628, 770255983, 1249150122, 1555081692, 1996064986,
   2554220882, 2821834349, 2952996808, 3210313671, 3336571891, 3584528711,
   113926993, 338241895, 666307205, 773529912, 1294757372, 1396182291,
   1695183700, 1986661051, 2177026350, 2456956037, 2730485921, 2820302411,
   3259730800, 3345764771, 3516065817, 3600352804, 4094571909, 275423344,
   430227734, 506948616, 659060556, 883997877, 958139571, 1322822218,
   1537002063, 1747873779, 1955562222, 2024104815, 2227730452, 2361852424,
   2428436474, 2756734187, 3204031479, 3329325298]

/-- Big-endian bytes to 32-bit words, four at a time. -/
def bytesToWordsBE : List Nat → List Nat
  | b0 :: b1 :: b2 :: b3 :: rest =>
    (((b0 * 256 + b1) * 256 + b2) * 256 + b3) :: bytesToWordsBE rest
  | _ => []

/-- Extend a 16-word block to the 64-word message schedule, one word per step. -/
def sha256Extend : Nat → List Nat → List Nat
  | 0, ws => ws
  | k + 1, ws =>
    let n := ws.length
    sha256Extend k (ws ++ [u32 (sha256SmallSigma1 (ws.getD (n - 2) 0) +
      ws.getD (n - 7) 0 + sha256SmallSigma0 (ws.getD (n - 15) 0) +
      ws.getD (n - 16) 0)])

/-- One compression round. -/
def sha256Round (st : Sha256State) (kw : Nat × Nat) : Sha256State :=
  let t1 := u32 (st.h + sha256BigSigma1 st.e + sha256Ch st.e st.f st.g + kw.1 + kw.2)
  let t2 := u32 (sha256BigSigma0 st.a + sha256Maj st.a st.b st.c)
  ⟨u32 (t1 + t2), st.a, st.b, st.c, u32 (st.d + t1), st.e, st.f, st.g⟩

/-- Compress one 64-byte block into the chaining state. -/
def sha256Compress (st : Sha256State) (block : List Nat) : Sha256State :=
  let ws := sha256Extend 48 (bytesToWordsBE block)
  let fin := (sha256K.zip ws).foldl sha256Round st
  ⟨u32 (st.a + fin.a), u32 (st.b + fin.b), u32 (st.c + fin.c), u32 (st.d + fin.d),
   u32 (st.e + fin.e), u32 (st.f + fin.f), u32 (st.g + fin.g), u32 (st.h + fin.h)⟩

/-- Fold the padded message through the compression function, one 64-byte
block per fuel step. -/
def sha256Chunks : Nat → Sha256State → List Nat → Sha256State
  | 0, st, _ => st
  | k + 1, st, bs => sha256Chunks k (sha256Compress st (bs.take 64)) (bs.drop 64)

/-- A 64-bit big-endian length field. -/
def be64Bytes (n : Nat) : List Nat :=
  [n / 72057594037927936 % 256, n / 281474976710656 % 256,
   n / 1099511627776 % 256, n / 4294967296 % 256, n / 16777216 % 256,
   n / 65536 % 256, n / 256 % 256, n % 256]

/-- Merkle–Damgård padding: `0x80`, zeros to 56 mod 64, the bit length. -/
def sha256Pad (msg : List Nat) : List Nat :=
  msg ++ 128 :: List.replicate ((119 - msg.length % 64) % 64) 0 ++
    be64Bytes (8 * msg.length)

/-- Big-endian bytes of a 32-bit word. -/
def be32Bytes (w : Nat) : List Nat :=
  [w / 16777216 % 256, w / 65536 % 256, w / 256 % 256, w % 256]

/-- SHA-256 of a byte string, as its 32 digest bytes. -/
def sha256 (msg : List Nat) : List Nat :=
  let padded := sha256Pad msg
  let st := sha256Chunks (padded.length / 64) sha256InitState padded
  be32Bytes st.a ++ be32Bytes st.b ++ be32Bytes st.c ++ be32Bytes st.d ++
    be32Bytes st.e ++ be32Bytes st.f ++ be32Bytes st.g ++ be32Bytes st.h

/-- HMAC-SHA-256: hash oversized keys, zero-pad to the 64-byte block size,
then the nested ipad/opad construction. -/
def hmacSha256 (key msg : List Nat) : List Nat :=
  let k0 := if 64 < key.length then sha256 key else key
  let kp := k0 ++ List.replicate (64 - k0.length) 0
  sha256 ((kp.map (fun b => Nat.xor b 92)) ++
    sha256 ((kp.map (fun b => Nat.xor b 54)) ++ msg))

theorem be32Bytes_lt (w : Nat) : ∀ b ∈ be32Bytes w, b < 256 := by
  intro b hb
  simp only [be32Bytes, List.mem_cons, List.not_mem_nil, or_false] at hb
  rcases hb with rfl | rfl | rfl | rfl <;> omega

/-- A SHA-256 digest is 32 bytes long. -/
theorem sha256_length (msg : List Nat) : (sha256 msg).length = 32 := by
  simp [sha256, be32Bytes]

/-- Every digest byte is below 256. -/
theorem sha256_lt (msg : List Nat) : ∀ b ∈ sha256 msg, b < 256 := by
  intro b hb
  simp only [sha256, List.append_assoc, List.mem_append] at hb
  rcases hb with hb | hb | hb | hb | hb | hb | hb | hb <;>
    exact be32Bytes_lt _ b hb

theorem hmacSha256_length (key msg : List Nat) :
    (hmacSha256 key msg).length = 32 := by
  rw [hmacSha256]
  exact sha256_length _

theorem hmacSha256_lt (key msg : List Nat) : ∀ b ∈ hmacSha256 key msg, b < 256 := by
  rw [hmacSha256]
  exact sha256_lt _

/-! ## The signed state token's string layer (`google-oauth.ts`) -/

/-- `signatureForPayload`: base64url of the HMAC-SHA-256 of the encoded
payload under the secret (both viewed as their UTF-8 bytes by
`createHmac`/`update`). -/
def signatureForPayload (payloadEncoded secret : JStr) : JStr :=
  base64urlEncode (hmacSha256 (utf8Encode secret) (utf8Encode payloadEncoded))

/-- `safeEqualStrings`: compare the UTF-8 byte views, length first, then
`timingSafeEqual` (which is contents equality; its constant-time execution has
no observable counterpart in this model). -/
def safeEqualStrings (left right : JStr) : Bool :=
  let a := utf8Encode left
  let b := utf8Encode right
  if a.length ≠ b.length then false else decide (a = b)

/-- The comparison holds exactly on equal strings. -/
theorem safeEqualStrings_iff (left right : JStr) :
    safeEqualStrings left right = true ↔ left = right := by
  rw [safeEqualStrings]
  constructor
  · intro h
    by_cases hlen : (utf8Encode left).length ≠ (utf8Encode right).length
    · rw [if_pos hlen] at h
      exact absurd h (by simp)
    · rw [if_neg hlen] at h
      exact utf8Encode_injective _ _ (by simpa using h)
  · intro h
    subst h
    simp

/-! ## JSON (`JSON.parse` / `JSON.stringify`)

JSON numbers are modelled as exact rationals; every number the token layer
serializes and re-reads is an integer far below 2^53, where the IEEE double
of the runtime is exact, so the idealization is faithful on all values the
encoder produces.  On arbitrary inputs the idealization is visible: a
numeral that overflows the double range (`1e999`) parses here to a huge
exact rational where `JSON.parse` yields `Infinity`, and a numeral above
2^53 parses exactly where the double rounds, so theorems in this file
about the parse path quantify only over inputs on which the two readings
agree (encoder outputs), never over arbitrary strings.  `Math.trunc` is
truncation toward zero. -/

/-- `Math.trunc` on a rational, as the integer it lands on: integer division
of the reduced numerator by the (positive) denominator, truncating toward
zero. -/
def jsTruncInt (q : Rat) : Int := q.num.tdiv (q.den : Int)

theorem jsTruncInt_intCast (i : Int) : jsTruncInt (i : Rat) = i := by
  rw [jsTruncInt, Rat.intCast_num, Rat.intCast_den]
  exact Int.tdiv_one i

/-- A lowercase hexadecimal digit. -/
def hexDigitChar (n : Nat) : Char :=
  if n < 10 then Char.ofNat (48 + n) else Char.ofNat (87 + n)

/-- `Buffer.prototype.toString("hex")`: two lowercase hex digits per byte
(source bytes are below 256, so the inner `% 16` is the identity on the high
nibble). -/
def bytesToHex (bs : List Nat) : JStr :=
  bs.flatMap (fun b => [hexDigitChar (b / 16 % 16), hexDigitChar (b % 16)])

/-- JSON `ws`: space, tab, line feed, carriage return. -/
def isJsonWsChar (c : Char) : Bool :=
  c.toNat = 32 || c.toNat = 9 || c.toNat = 10 || c.toNat = 13

def jsonSkipWs (s : JStr) : JStr := s.dropWhile isJsonWsChar

def isJsonDigit (c : Char) : Bool := 48 ≤ c.toNat && c.toNat ≤ 57

/-- A JSON value.  Object member lists keep source order and duplicates;
lookup takes the last binding, as `JSON.parse` does. -/
inductive JVal
  | jnull
  | jbool (b : Bool)
  | jnum (q : Rat)
  | jstr (s : JStr)
  | jarr (items : List JVal)
  | jobj (members : List (JStr × JVal))

/-- Value of a hexadecimal digit in a `\u` escape. -/
def jpHexVal (c : Char) : Option Nat :=
  if 48 ≤ c.toNat ∧ c.toNat ≤ 57 then some (c.toNat - 48)
  else if 97 ≤ c.toNat ∧ c.toNat ≤ 102 then some (c.toNat - 87)
  else if 65 ≤ c.toNat ∧ c.toNat ≤ 70 then some (c.toNat - 55)
  else none

/-- The character denoted by a two-character JSON escape. -/
def jpEscChar (e : Char) : Option Char :=
  if e = '"' then some '"'
  else if e = '\\' then some '\\'
  else if e = '/' then some '/'
  else if e = 'b' then some (Char.ofNat 8)
  else if e = 'f' then some (Char.ofNat 12)
  else if e = 'n' then some (Char.ofNat 10)
  else if e = 'r' then some (Char.ofNat 13)
  else if e = 't' then some (Char.ofNat 9)
  else none

/-- JSON string-body scanner, after the opening quote.  `mode` 0 reads plain
characters, 1 has just read a backslash, and `k + 2` is inside a `\u` escape
with `k` digits read and their value in `acc`.  Unescaped control characters
are rejected, as `JSON.parse` rejects them.  A `\u` surrogate half is
rejected: a Lean `Char` cannot carry a lone surrogate, while `JSON.parse`
accepts the escape and builds an ill-formed JS string, so a payload using
one is accepted by the source and unrepresentable here.  The serializer
under verification never emits a surrogate escape, so the two sides agree
on every encoder output. -/
def jpStrAux : JStr → Nat → Nat → Option (JStr × JStr)
  | [], _, _ => none
  | c :: rest, 0, _ =>
    if c = '"' then some ([], rest)
    else if c = '\\' then jpStrAux rest 1 0
    else if c.toNat < 32 then none
    else (jpStrAux rest 0 0).map (fun p => (c :: p.1, p.2))
  | c :: rest, 1, _ =>
    if c = 'u' then jpStrAux rest 2 0
    else (jpEscChar c).bind
      (fun d => (jpStrAux rest 0 0).map (fun p => (d :: p.1, p.2)))
  | c :: rest, Nat.succ (Nat.succ k), acc =>
    (jpHexVal c).bind (fun d =>
      if k < 3 then jpStrAux rest (k + 3) (acc * 16 + d)
      else if 55296 ≤ acc * 16 + d ∧ acc * 16 + d ≤ 57343 then none
      else (jpStrAux rest 0 0).map
        (fun p => (Char.ofNat (acc * 16 + d) :: p.1, p.2)))

/-- Parse a JSON string body (the opening quote already consumed), returning
the decoded string and the input after the closing quote. -/
def jpString (s : JStr) : Option (JStr × JStr) := jpStrAux s 0 0

/-- Consume a run of decimal digits, extending `acc` and counting them. -/
def jpDigits : JStr → Nat → Nat → Nat × Nat × JStr
  | [], acc, cnt => (acc, cnt, [])
  | c :: rest, acc, cnt =>
    if isJsonDigit c then jpDigits rest (acc * 10 + (c.toNat - 48)) (cnt + 1)
    else (acc, cnt, c :: rest)

/-- A leading zero followed by another digit, which the JSON number grammar
forbids. -/
def jpLeadingZero : JStr → Bool
  | c :: d :: _ => c = '0' && isJsonDigit d
  | _ => false

/-- Optional exponent part: scale the mantissa by the signed power of ten. -/
def jpNumExpDigits (m : Rat) (neg : Bool) (s : JStr) : Option (Rat × JStr) :=
  let t := jpDigits s 0 0
  if t.2.1 = 0 then none
  else some (if neg then m / ((10 : Rat) ^ t.1) else m * ((10 : Rat) ^ t.1), t.2.2)

def jpNumExp (m : Rat) (s : JStr) : Option (Rat × JStr) :=
  match s with
  | [] => some (m, [])
  | c :: rest =>
    if c = 'e' ∨ c = 'E' then
      match rest with
      | [] => none
      | d :: rest2 =>
        if d = '+' then jpNumExpDigits m false rest2
        else if d = '-' then jpNumExpDigits m true rest2
        else jpNumExpDigits m false (d :: rest2)
    else some (m, c :: rest)

/-- Optional fraction part after the integer part `ip`. -/
def jpNumFrac (ip : Nat) (s : JStr) : Option (Rat × JStr) :=
  match s with
  | [] => jpNumExp (ip : Rat) []
  | c :: rest =>
    if c = '.' then
      let t := jpDigits rest 0 0
      if t.2.1 = 0 then none
      else jpNumExp ((ip : Rat) + (t.1 : Rat) / ((10 : Rat) ^ t.2.1)) t.2.2
    else jpNumExp (ip : Rat) (c :: rest)

/-- Unsigned JSON number: integer part without leading zero, then optional
fraction and exponent. -/
def jpNumMag (s : JStr) : Option (Rat × JStr) :=
  let t := jpDigits s 0 0
  if t.2.1 = 0 then none
  else if jpLeadingZero s then none
  else jpNumFrac t.1 t.2.2

/-- JSON number, with optional leading minus. -/
def jpNumber (s : JStr) : Option (Rat × JStr) :=
  match s with
  | [] => none
  | c :: rest =>
    if c = '-' then (jpNumMag rest).map (fun p => (-p.1, p.2))
    else jpNumMag (c :: rest)

/-- Skip whitespace and consume an expected punctuation character. -/
def jpExpect (c : Char) (s : JStr) : Option JStr :=
  match jsonSkipWs s with
  | [] => none
  | d :: rest => if d = c then some rest else none

mutual

/-- Parse one JSON value after optional whitespace.  The fuel bounds nesting;
`jsonParse` supplies more fuel than the input length, so it never runs out on
an actual parse. -/
def jpValue : Nat → JStr → Option (JVal × JStr)
  | 0, _ => none
  | Nat.succ f, s =>
    match jsonSkipWs s with
    | [] => none
    | c :: rest =>
      if c = '"' then (jpString rest).map (fun p => (JVal.jstr p.1, p.2))
      else if c = Char.ofNat 123 then
        match jpExpect (Char.ofNat 125) rest with
        | some r => some (JVal.jobj [], r)
        | none => (jpMembers f rest).map (fun p => (JVal.jobj p.1, p.2))
      else if c = '[' then
        match jpExpect ']' rest with
        | some r => some (JVal.jarr [], r)
        | none => (jpItems f rest).map (fun p => (JVal.jarr p.1, p.2))
      else if c = 'n' then
        if List.isPrefixOf ['u', 'l', 'l'] rest then some (JVal.jnull, rest.drop 3)
        else none
      else if c = 't' then
        if List.isPrefixOf ['r', 'u', 'e'] rest then some (JVal.jbool true, rest.drop 3)
        else none
      else if c = 'f' then
        if List.isPrefixOf ['a', 'l', 's', 'e'] rest then
          some (JVal.jbool false, rest.drop 4)
        else none
      else if c = '-' ∨ isJsonDigit c then
        (jpNumber (c :: rest)).map (fun p => (JVal.jnum p.1, p.2))
      else none

/-- Parse the items of a nonempty array, one value then `,` or `]`. -/
def jpItems : Nat → JStr → Option (List JVal × JStr)
  | 0, _ => none
  | Nat.succ f, s =>
    (jpValue f s).bind (fun vp =>
      match jsonSkipWs vp.2 with
      | [] => none
      | e :: rest =>
        if e = ',' then (jpItems f rest).map (fun p => (vp.1 :: p.1, p.2))
        else if e = ']' then some ([vp.1], rest)
        else none)

/-- Parse the members of a nonempty object: quoted key, `:`, value, then `,`
or the closing brace. -/
def jpMembers : Nat → JStr → Option (List (JStr × JVal) × JStr)
  | 0, _ => none
  | Nat.succ f, s =>
    (jpExpect '"' s).bind (fun r1 =>
      (jpString r1).bind (fun kp =>
        (jpExpect ':' kp.2).bind (fun r2 =>
          (jpValue f r2).bind (fun vp =>
            match jsonSkipWs vp.2 with
            | [] => none
            | e :: rest =>
              if e = ',' then
                (jpMembers f rest).map (fun p => ((kp.1, vp.1) :: p.1, p.2))
              else if e = Char.ofNat 125 then some ([(kp.1, vp.1)], rest)
              else none))))

end

/-- `JSON.parse`: one value, whitespace on both sides, nothing after. -/
def jsonParse (s : JStr) : Option JVal :=
  match jpValue (s.length + 1) s with
  | none => none
  | some (v, rest) => if jsonSkipWs rest = [] then some v else none

/-- `JSON.stringify` escaping of one string character: the two-character
escapes for quote, backslash and the named controls, `\u00XX` for the other
control characters, the character itself otherwise. -/
def jsonEscapeChar (c : Char) : JStr :=
  if c = '"' then ['\\', '"']
  else if c = '\\' then ['\\', '\\']
  else if c.toNat = 8 then ['\\', 'b']
  else if c.toNat = 9 then ['\\', 't']
  else if c.toNat = 10 then ['\\', 'n']
  else if c.toNat = 12 then ['\\', 'f']
  else if c.toNat = 13 then ['\\', 'r']
  else if c.toNat < 32 then
    ['\\', 'u', '0', '0', hexDigitChar (c.toNat / 16), hexDigitChar (c.toNat % 16)]
  else [c]

def jsonEscape (s : JStr) : JStr := s.flatMap jsonEscapeChar

/-- A string as `JSON.stringify` renders it, quotes included. -/
def jsonQuote (s : JStr) : JStr := '"' :: (jsonEscape s ++ ['"'])

/-- Decimal digits of `n`, most significant first; the fuel only needs to
reach the digit count. -/
def natToCharsAux : Nat → Nat → JStr
  | 0, _ => []
  | Nat.succ fuel, n =>
    if n = 0 then [] else natToCharsAux fuel (n / 10) ++ [digitChar (n % 10)]

def natToChars (n : Nat) : JStr := if n = 0 then ['0'] else natToCharsAux n n

/-- An integer as `JSON.stringify` renders an integral double. -/
def intToChars (i : Int) : JStr :=
  if i < 0 then '-' :: natToChars i.natAbs else natToChars i.natAbs

/-! ## The signed Google OAuth state token (`google-oauth` part of
`store.ts`) -/

/-- The normalized state payload.  The version tag is the constant `1` and is
left implicit; `uid` and `ts` hold `Math.trunc` results, hence integers. -/
structure GoogleStatePayload where
  uid : Int
  ts : Int
  n : JStr
  aid : Option JStr := none
  hint : Option JStr := none
deriving DecidableEq

def GOOGLE_STATE_MAX_AGE_MS : Rat := 15 * 60 * 1000

/-- `JSON.stringify` of the payload object, fields in insertion order, the
optional ones only when present. -/
def stringifyStatePayload (p : GoogleStatePayload) : JStr :=
  Char.ofNat 123 ::
    (jsonQuote ['v'] ++ ':' :: (['1'] ++
     ',' :: (jsonQuote ['u', 'i', 'd'] ++ ':' :: (intToChars p.uid ++
     ',' :: (jsonQuote ['t', 's'] ++ ':' :: (intToChars p.ts ++
     ',' :: (jsonQuote ['n'] ++ ':' :: (jsonQuote p.n ++
     (match p.aid with
      | some a => ',' :: (jsonQuote ['a', 'i', 'd'] ++ ':' :: jsonQuote a)
      | none => []) ++
     (match p.hint with
      | some h => ',' :: (jsonQuote ['h', 'i', 'n', 't'] ++ ':' :: jsonQuote h)
      | none => []) ++
     [Char.ofNat 125]))))))))

/-- Property lookup on a parsed JSON object: the last binding of the key
wins, as it does for `JSON.parse`. -/
def jlookup (ms : List (JStr × JVal)) (key : JStr) : Option JVal :=
  match ms with
  | [] => none
  | (k, v) :: rest =>
    match jlookup rest key with
    | some w => some w
    | none => if k = key then some v else none

/-- The `aid`/`hint` normalization in `parseStatePayload`: present only when
the looked-up value is a string with nonblank trim, and then trimmed. -/
def optTrimmedField (v : Option JVal) : Option JStr :=
  match v with
  | some (JVal.jstr s) => if jsTrim s = [] then none else some (jsTrim s)
  | _ => none

/-- The validation and normalization `parseStatePayload` applies to the
decoded JSON text.  `v` must be the number 1; `uid` and `ts` must be
numbers and are truncated; `n` must be a string with nonblank trim and is
kept untrimmed.  The source also requires `Number.isFinite(uid)` and
`Number.isFinite(ts)`: under the exact-rational reading of numbers there
are no non-finite values, so that guard has no counterpart here — on a
payload whose numeral overflows the double range the source returns `null`
where this model accepts, one of the recorded reasons the parse path is
faithful only on encoder outputs. -/
def parseStateText (text : JStr) : Option GoogleStatePayload :=
  match jsonParse text with
  | some (JVal.jobj ms) =>
    match jlookup ms ['v'], jlookup ms ['u', 'i', 'd'],
        jlookup ms ['t', 's'], jlookup ms ['n'] with
    | some (JVal.jnum qv), some (JVal.jnum qu),
        some (JVal.jnum qt), some (JVal.jstr ns) =>
      if qv = 1 ∧ jsTrim ns ≠ [] then
        some { uid := jsTruncInt qu, ts := jsTruncInt qt, n := ns,
               aid := optTrimmedField (jlookup ms ['a', 'i', 'd']),
               hint := optTrimmedField (jlookup ms ['h', 'i', 'n', 't']) }
      else none
    | _, _, _, _ => none
  | _ => none

/-- `parseStatePayload`: base64url-decode, UTF-8 decode, `JSON.parse`, then
validate and normalize.  Any failure, including a throwing decode or parse,
yields `none`. -/
def parseStatePayload (payloadEncoded : JStr) : Option GoogleStatePayload :=
  ((base64urlDecode payloadEncoded).bind utf8Decode).bind parseStateText

/-- The `params.accountId?.trim()` guard of `createGoogleStateToken`: the
field is set only when the option is present with nonblank trim, and then to
the trimmed string. -/
def optNormalize (o : Option JStr) : Option JStr :=
  match o with
  | none => none
  | some s => if jsTrim s = [] then none else some (jsTrim s)

/-- `createGoogleStateToken`.  The clock and the `randomBytes(12)` entropy
are passed explicitly; the nonce is the entropy in lowercase hex. -/
def createGoogleStateToken (secret : JStr) (telegramUserId : Rat)
    (accountId loginHint : Option JStr) (entropy : List Nat) (nowMs : Rat) : JStr :=
  let payload : GoogleStatePayload :=
    { uid := jsTruncInt telegramUserId, ts := jsTruncInt nowMs,
      n := bytesToHex entropy,
      aid := optNormalize accountId, hint := optNormalize loginHint }
  let payloadEncoded := base64urlEncode (utf8Encode (stringifyStatePayload payload))
  payloadEncoded ++ '.' :: signatureForPayload payloadEncoded secret

inductive VerifyError
  | missing
  | invalid
  | signature
  | expired
deriving DecidableEq

inductive VerifyResult
  | ok (payload : GoogleStatePayload)
  | err (e : VerifyError)
deriving DecidableEq

/-- `verifyGoogleStateToken`: trim, split at the last `.`, check the HMAC,
parse and validate the payload, then check the issue time against the clock
with 60 s of forward skew and a max age clamped to at least 60 s. -/
def verifyGoogleStateToken (state secret : JStr) (nowMs : Rat)
    (maxAgeMs : Option Rat) : VerifyResult :=
  let raw := jsTrim state
  if raw = [] then .err .missing
  else
    let sep := jsLastIndexOf '.' raw
    if sep ≤ 0 ∨ sep = (raw.length : Int) - 1 then .err .invalid
    else
      let payloadEncoded := raw.take sep.toNat
      let signature := raw.drop (sep.toNat + 1)
      let expectedSignature := signatureForPayload payloadEncoded secret
      if ¬ safeEqualStrings signature expectedSignature then .err .signature
      else
        match parseStatePayload payloadEncoded with
        | none => .err .invalid
        | some payload =>
          let now := jsTruncInt nowMs
          let maxAge := max 60000 (jsTruncInt (maxAgeMs.getD GOOGLE_STATE_MAX_AGE_MS))
          if payload.ts > now + 60000 ∨ now - payload.ts > maxAge then .err .expired
          else .ok payload

/-! ## Supporting lemmas: trimming, splitting, character classes -/

theorem dropWhile_head_false {p : Char → Bool} : ∀ (l : JStr),
    ∀ x ∈ (List.dropWhile p l).head?, p x = false
  | [], x, hx => by simp at hx
  | c :: t, x, hx => by
    rw [List.dropWhile_cons] at hx
    by_cases hc : p c = true
    · rw [if_pos hc] at hx
      exact dropWhile_head_false t x hx
    · rw [if_neg hc] at hx
      simp at hx
      rw [← hx]
      exact Bool.eq_false_iff.mpr hc

theorem dropWhile_of_head_false {p : Char → Bool} (l : JStr)
    (h : ∀ x ∈ l.head?, p x = false) : List.dropWhile p l = l := by
  cases l with
  | nil => rfl
  | cons c t =>
    rw [List.dropWhile_cons, if_neg]
    rw [h c rfl]
    simp

theorem getLast?_dropWhile {p : Char → Bool} : ∀ (l : JStr),
    List.dropWhile p l ≠ [] → (List.dropWhile p l).getLast? = l.getLast?
  | [], h => absurd rfl h
  | c :: t, h => by
    rw [List.dropWhile_cons]
    rw [List.dropWhile_cons] at h
    by_cases hc : p c = true
    · rw [if_pos hc]
      rw [if_pos hc] at h
      rw [getLast?_dropWhile t h]
      cases t with
      | nil => exact absurd rfl h
      | cons d t2 => rw [List.getLast?_cons_cons]
    · rw [if_neg hc]

/-- `trim` is the identity when neither end is whitespace. -/
theorem jsTrim_id (s : JStr)
    (hh : ∀ x ∈ s.head?, isJsWhitespaceChar x = false)
    (hl : ∀ x ∈ s.getLast?, isJsWhitespaceChar x = false) : jsTrim s = s := by
  rw [jsTrim, dropWhile_of_head_false s hh, dropWhile_of_head_false, List.reverse_reverse]
  intro x hx
  rw [List.head?_reverse] at hx
  exact hl x hx

/-- `trim` is the identity on strings with no whitespace at all. -/
theorem jsTrim_id_of_all (s : JStr)
    (h : ∀ x ∈ s, isJsWhitespaceChar x = false) : jsTrim s = s := by
  refine jsTrim_id s (fun x hx => h x ?_) (fun x hx => h x ?_)
  · exact List.mem_of_mem_head? hx
  · exact List.mem_of_mem_getLast? hx

theorem jsTrim_idem (s : JStr) : jsTrim (jsTrim s) = jsTrim s := by
  by_cases hb : (jsTrim s) = []
  · rw [hb]
    rfl
  · refine jsTrim_id _ ?_ ?_
    · intro x hx
      rw [jsTrim] at hx hb
      rw [List.head?_reverse] at hx
      have hbne : List.dropWhile isJsWhitespaceChar
          (List.reverse (List.dropWhile isJsWhitespaceChar s)) ≠ [] := by
        intro hcon
        rw [hcon] at hb
        exact hb rfl
      rw [getLast?_dropWhile _ hbne, List.getLast?_reverse] at hx
      exact dropWhile_head_false _ x hx
    · intro x hx
      rw [jsTrim] at hx
      rw [List.getLast?_reverse] at hx
      exact dropWhile_head_false _ x hx

theorem jsLastIndexOfAux_not_mem (c : Char) : ∀ (l : JStr) (i : Nat) (best : Int),
    c ∉ l → jsLastIndexOfAux c l i best = best
  | [], _, _, _ => rfl
  | x :: xs, i, best, h => by
    rw [jsLastIndexOfAux, if_neg, jsLastIndexOfAux_not_mem c xs (i + 1) best]
    · intro hmem
      exact h (List.mem_cons_of_mem x hmem)
    · intro hx
      exact h (hx ▸ List.mem_cons_self x xs)

theorem jsLastIndexOfAux_append (c : Char) : ∀ (l₁ l₂ : JStr) (i : Nat) (best : Int),
    jsLastIndexOfAux c (l₁ ++ l₂) i best =
      jsLastIndexOfAux c l₂ (i + l₁.length) (jsLastIndexOfAux c l₁ i best)
  | [], l₂, i, best => by simp [jsLastIndexOfAux]
  | x :: xs, l₂, i, best => by
    rw [List.cons_append, jsLastIndexOfAux, jsLastIndexOfAux,
      jsLastIndexOfAux_append c xs l₂ (i + 1) _]
    have : i + (x :: xs).length = i + 1 + xs.length := by
      simp
      omega
    rw [this]

/-- `lastIndexOf` finds the final separator: splitting at the last `.`. -/
theorem jsLastIndexOf_split (l₁ l₂ : JStr) (c : Char) (h : c ∉ l₂) :
    jsLastIndexOf c (l₁ ++ c :: l₂) = (l₁.length : Int) := by
  rw [jsLastIndexOf, jsLastIndexOfAux_append, jsLastIndexOfAux, if_pos rfl,
    jsLastIndexOfAux_not_mem c l₂ _ _ h]
  simp

theorem jsLastIndexOf_not_mem (l : JStr) (c : Char) (h : c ∉ l) :
    jsLastIndexOf c l = -1 := by
  rw [jsLastIndexOf, jsLastIndexOfAux_not_mem c l _ _ h]

theorem utf8EncodeChar_lt (c : Char) : ∀ b ∈ utf8EncodeChar c, b < 256 := by
  intro b hb
  have hval : c.toNat < 55296 ∨ (57343 < c.toNat ∧ c.toNat < 1114112) := c.valid
  rw [utf8EncodeChar] at hb
  split at hb
  · simp only [List.mem_cons, List.not_mem_nil, or_false] at hb
    omega
  · split at hb
    · simp only [List.mem_cons, List.not_mem_nil, or_false] at hb
      rcases hb with rfl | rfl <;> omega
    · split at hb
      · simp only [List.mem_cons, List.not_mem_nil, or_false] at hb
        rcases hb with rfl | rfl | rfl <;> omega
      · simp only [List.mem_cons, List.not_mem_nil, or_false] at hb
        rcases hb with rfl | rfl | rfl | rfl <;> omega

theorem utf8Encode_lt (s : JStr) : ∀ b ∈ utf8Encode s, b < 256 := by
  intro b hb
  rw [utf8Encode] at hb
  obtain ⟨c, _, hc⟩ := List.mem_flatMap.mp hb
  exact utf8EncodeChar_lt c b hc

/-- UTF-8 is one byte per character on ASCII strings. -/
theorem utf8Encode_ascii_length : ∀ (s : JStr), (∀ c ∈ s, c.toNat < 128) →
    (utf8Encode s).length = s.length
  | [], _ => rfl
  | c :: t, h => by
    have hc : c.toNat < 128 := h c (List.mem_cons_self c t)
    have ht := utf8Encode_ascii_length t (fun x hx => h x (List.mem_cons_of_mem c hx))
    show (utf8EncodeChar c ++ utf8Encode t).length = t.length + 1
    rw [List.length_append, ht, utf8EncodeChar, if_pos hc]
    simp
    omega

theorem utf8Encode_ne_nil (c : Char) (t : JStr) : utf8Encode (c :: t) ≠ [] := by
  show utf8EncodeChar c ++ utf8Encode t ≠ []
  intro h
  have h1 : utf8EncodeChar c = [] := (List.append_eq_nil.mp h).1
  rw [utf8EncodeChar] at h1
  split at h1
  · simp at h1
  · split at h1
    · simp at h1
    · split at h1 <;> simp at h1

/-- Every character an encoder emits is an alphabet character. -/
theorem base64urlEncode_mem : ∀ (bs : List Nat), (∀ b ∈ bs, b < 256) →
    ∀ c ∈ base64urlEncode bs, ∃ n, n < 64 ∧ c = b64UrlChar n
  | [], _, c, hc => by simp [base64urlEncode] at hc
  | [b0], hb, c, hc => by
    have h0 : b0 < 256 := hb b0 (by simp)
    rw [base64urlEncode] at hc
    simp only [List.mem_cons, List.not_mem_nil, or_false] at hc
    rcases hc with rfl | rfl
    · exact ⟨b0 / 4, by omega, rfl⟩
    · exact ⟨b0 % 4 * 16, by omega, rfl⟩
  | [b0, b1], hb, c, hc => by
    have h0 : b0 < 256 := hb b0 (by simp)
    have h1 : b1 < 256 := hb b1 (by simp)
    rw [base64urlEncode] at hc
    simp only [List.mem_cons, List.not_mem_nil, or_false] at hc
    rcases hc with rfl | rfl | rfl
    · exact ⟨b0 / 4, by omega, rfl⟩
    · exact ⟨b0 % 4 * 16 + b1 / 16, by omega, rfl⟩
    · exact ⟨b1 % 16 * 4, by omega, rfl⟩
  | b0 :: b1 :: b2 :: rest, hb, c, hc => by
    have h0 : b0 < 256 := hb b0 (by simp)
    have h1 : b1 < 256 := hb b1 (by simp)
    have h2 : b2 < 256 := hb b2 (by simp)
    rw [base64urlEncode] at hc
    simp only [List.mem_cons] at hc
    rcases hc with rfl | rfl | rfl | rfl | hc
    · exact ⟨b0 / 4, by omega, rfl⟩
    · exact ⟨b0 % 4 * 16 + b1 / 16, by omega, rfl⟩
    · exact ⟨b1 % 16 * 4 + b2 / 64, by omega, rfl⟩
    · exact ⟨b2 % 64, by omega, rfl⟩
    · exact base64urlEncode_mem rest
        (fun b hmem => hb b (List.mem_cons_of_mem b0 (List.mem_cons_of_mem b1
          (List.mem_cons_of_mem b2 hmem)))) c hc

/-- Characters an encoder emits are ASCII, not `.`, and not whitespace. -/
theorem base64urlEncode_plain (bs : List Nat) (hb : ∀ b ∈ bs, b < 256) :
    ∀ c ∈ base64urlEncode bs,
      c.toNat < 128 ∧ c ≠ '.' ∧ isJsWhitespaceChar c = false := by
  intro c hc
  obtain ⟨n, hn, rfl⟩ := base64urlEncode_mem bs hb c hc
  exact b64UrlChar_plain n hn

theorem base64urlEncode_length : ∀ (bs : List Nat),
    (base64urlEncode bs).length =
      bs.length / 3 * 4 + (if bs.length % 3 = 0 then 0 else bs.length % 3 + 1)
  | [] => rfl
  | [_] => by simp [base64urlEncode]
  | [_, _] => by simp [base64urlEncode]
  | b0 :: b1 :: b2 :: rest => by
    rw [base64urlEncode]
    show (base64urlEncode rest).length + 4 = _
    rw [base64urlEncode_length rest]
    have : (b0 :: b1 :: b2 :: rest).length = rest.length + 3 := by simp
    rw [this]
    have h3 : (rest.length + 3) / 3 = rest.length / 3 + 1 := by omega
    have h4 : (rest.length + 3) % 3 = rest.length % 3 := by omega
    rw [h3, h4]
    split <;> omega

theorem hexDigitChar_facts : ∀ n, n < 16 →
    isJsWhitespaceChar (hexDigitChar n) = false ∧ (hexDigitChar n).toNat < 128 := by
  decide

theorem bytesToHex_mem (bs : List Nat) :
    ∀ c ∈ bytesToHex bs, ∃ n, n < 16 ∧ c = hexDigitChar n := by
  intro c hc
  rw [bytesToHex] at hc
  obtain ⟨b, _, hb2⟩ := List.mem_flatMap.mp hc
  simp only [List.mem_cons, List.not_mem_nil, or_false] at hb2
  rcases hb2 with rfl | rfl
  · exact ⟨b / 16 % 16, by omega, rfl⟩
  · exact ⟨b % 16, by omega, rfl⟩

theorem bytesToHex_length (bs : List Nat) : (bytesToHex bs).length = 2 * bs.length := by
  induction bs with
  | nil => rfl
  | cons b t ih =>
    show ([hexDigitChar (b / 16 % 16), hexDigitChar (b % 16)] ++ bytesToHex t).length = _
    rw [List.length_append, ih]
    simp
    omega

/-! ## Parsing the serializer's output: numbers -/

theorem digitChar_facts : ∀ d, d < 10 →
    isJsonDigit (digitChar d) = true ∧ (digitChar d).toNat - 48 = d ∧
      isJsWhitespaceChar (digitChar d) = false ∧ (digitChar d).toNat < 128 := by
  decide

theorem natToCharsAux_zero : ∀ fuel, natToCharsAux fuel 0 = []
  | 0 => rfl
  | Nat.succ fuel => by rw [natToCharsAux, if_pos rfl]

/-- Appending a digit block to a running digit scan multiplies the
accumulator out and adds the block's value. -/
theorem jpDigits_natToCharsAux : ∀ (fuel n acc cnt : Nat) (rest : JStr),
    n < 10 ^ fuel →
    jpDigits (natToCharsAux fuel n ++ rest) acc cnt =
      jpDigits rest (acc * 10 ^ (natToCharsAux fuel n).length + n)
        (cnt + (natToCharsAux fuel n).length)
  | 0, n, acc, cnt, rest, hn => by
    have : n = 0 := by omega
    subst this
    simp [natToCharsAux]
  | Nat.succ fuel, n, acc, cnt, rest, hn => by
    by_cases h0 : n = 0
    · subst h0
      rw [natToCharsAux, if_pos rfl]
      simp
    · rw [natToCharsAux, if_neg h0, List.append_assoc, List.cons_append,
        jpDigits_natToCharsAux fuel (n / 10) acc cnt _
          (by
            have : 10 ^ fuel.succ = 10 ^ fuel * 10 := by rw [Nat.pow_succ]
            omega)]
      have hd := digitChar_facts (n % 10) (by omega)
      rw [jpDigits, if_pos hd.1, hd.2.1]
      simp only [List.nil_append, List.length_append, List.length_cons,
        List.length_nil]
      generalize (natToCharsAux fuel (n / 10)).length = L
      have hpow : (10 : Nat) ^ (L + (0 + 1)) = 10 ^ L * 10 := by
        have : L + (0 + 1) = L + 1 := by omega
        rw [this, Nat.pow_succ]
      rw [hpow]
      have harg : (acc * 10 ^ L + n / 10) * 10 + n % 10 =
          acc * (10 ^ L * 10) + n := by
        have := Nat.mod_add_div n 10
        ring_nf
        omega
      rw [harg]
      have hcnt : cnt + L + 1 = cnt + (L + (0 + 1)) := by omega
      rw [hcnt]

/-- Digit scanning stops at a non-digit. -/
theorem jpDigits_stop (acc cnt : Nat) : ∀ (s : JStr),
    (∀ x ∈ s.head?, isJsonDigit x = false) → jpDigits s acc cnt = (acc, cnt, s)
  | [], _ => rfl
  | c :: t, h => by
    rw [jpDigits, if_neg]
    rw [h c rfl]
    simp

theorem digitChar_ne_zero : ∀ n, n < 10 → 0 < n → digitChar n ≠ '0' := by
  decide

/-- The leading digit of a positive number is not zero. -/
theorem natToCharsAux_head : ∀ (fuel n : Nat), 0 < n → n < 10 ^ fuel →
    ∃ c t, natToCharsAux fuel n = c :: t ∧ isJsonDigit c = true ∧ c ≠ '0'
  | 0, n, hpos, hlt => by
    exfalso
    simp at hlt
    omega
  | Nat.succ fuel, n, hpos, hlt => by
    simp only [natToCharsAux, if_neg (show ¬n = 0 by omega)]
    by_cases hsmall : n < 10
    · have h10 : n / 10 = 0 := by omega
      rw [h10, natToCharsAux_zero]
      have hmod : n % 10 = n := by omega
      exact ⟨digitChar n, [], by rw [hmod]; rfl, (digitChar_facts n hsmall).1,
        digitChar_ne_zero n hsmall hpos⟩
    · obtain ⟨c, t, heq, hdig, hne⟩ := natToCharsAux_head fuel (n / 10)
        (by omega)
        (by
          have : 10 ^ fuel.succ = 10 ^ fuel * 10 := by rw [Nat.pow_succ]
          omega)
      exact ⟨c, t ++ [digitChar (n % 10)], by rw [heq]; rfl, hdig, hne⟩

/-- A character that ends a serialized integer: not a digit and not a
fraction or exponent marker.  `,` and the closing brace qualify. -/
def jpNumStop (e : Char) : Prop :=
  isJsonDigit e = false ∧ e ≠ '.' ∧ e ≠ 'e' ∧ e ≠ 'E'

theorem natToChars_head (n : Nat) :
    ∃ c t, natToChars n = c :: t ∧ isJsonDigit c = true := by
  by_cases h0 : n = 0
  · subst h0
    exact ⟨'0', [], rfl, by decide⟩
  · obtain ⟨c, t, heq, hdig, _⟩ := natToCharsAux_head n n (by omega)
      (Nat.lt_pow_self (by norm_num) n)
    exact ⟨c, t, by rw [natToChars, if_neg h0, heq], hdig⟩

theorem jpNumMag_natToChars (n : Nat) (e : Char) (rest : JStr) (he : jpNumStop e) :
    jpNumMag (natToChars n ++ e :: rest) = some ((n : Rat), e :: rest) := by
  have hstop : ∀ x ∈ (e :: rest).head?, isJsonDigit x = false := by
    intro x hx
    simp at hx
    rw [← hx]
    exact he.1
  by_cases h0 : n = 0
  · subst h0
    rw [natToChars, if_pos rfl]
    have h1 : isJsonDigit '0' = true := by decide
    have ht : jpDigits (['0'] ++ e :: rest) 0 0 = (0, 1, e :: rest) := by
      rw [List.singleton_append, jpDigits, if_pos h1,
        jpDigits_stop _ _ (e :: rest) hstop]
      have h48 : '0'.toNat - 48 = 0 := by decide
      rw [h48]
    rw [jpNumMag]
    simp only [ht]
    rw [if_neg (by norm_num)]
    have hlz : jpLeadingZero (['0'] ++ e :: rest) = false := by
      rw [List.singleton_append, jpLeadingZero]
      rw [he.1]
      simp
    rw [if_neg (by rw [hlz]; simp)]
    rw [jpNumFrac, if_neg he.2.1]
    simp only [jpNumExp]
    rw [if_neg (by rw [not_or]; exact ⟨he.2.2.1, he.2.2.2⟩)]
  · rw [natToChars, if_neg h0]
    obtain ⟨c, t, heq, hdig, hne0⟩ := natToCharsAux_head n n (by omega)
      (Nat.lt_pow_self (by norm_num) n)
    have hlen1 : 0 < (natToCharsAux n n).length := by rw [heq]; simp
    have ht : jpDigits (natToCharsAux n n ++ e :: rest) 0 0 =
        (n, (natToCharsAux n n).length, e :: rest) := by
      rw [jpDigits_natToCharsAux n n 0 0 _ (Nat.lt_pow_self (by norm_num) n),
        jpDigits_stop _ _ (e :: rest) hstop]
      norm_num
    rw [jpNumMag]
    simp only [ht]
    rw [if_neg (by
      show ¬((natToCharsAux n n).length = 0)
      omega)]
    have hlz : jpLeadingZero (natToCharsAux n n ++ e :: rest) = false := by
      rw [heq]
      cases t with
      | nil =>
        rw [List.cons_append, List.nil_append, jpLeadingZero,
          decide_eq_false hne0]
        simp
      | cons d t2 =>
        rw [List.cons_append, List.cons_append, jpLeadingZero,
          decide_eq_false hne0]
        simp
    rw [if_neg (by rw [hlz]; simp)]
    rw [jpNumFrac, if_neg he.2.1]
    simp only [jpNumExp]
    rw [if_neg (by rw [not_or]; exact ⟨he.2.2.1, he.2.2.2⟩)]

theorem jpNumber_intToChars (i : Int) (e : Char) (rest : JStr) (he : jpNumStop e) :
    jpNumber (intToChars i ++ e :: rest) = some ((i : Rat), e :: rest) := by
  by_cases hneg : i < 0
  · rw [intToChars, if_pos hneg, List.cons_append, jpNumber, if_pos rfl,
      jpNumMag_natToChars i.natAbs e rest he]
    have habs : ((i.natAbs : Nat) : Rat) = -(i : Rat) := by
      have h1 : ((i.natAbs : Nat) : Int) = -i := Int.ofNat_natAbs_of_nonpos (by omega)
      calc ((i.natAbs : Nat) : Rat) = (((i.natAbs : Nat) : Int) : Rat) :=
            (Int.cast_natCast _).symm
        _ = ((-i : Int) : Rat) := by rw [h1]
        _ = -(i : Rat) := by push_cast; ring
    simp only [Option.map_some']
    rw [habs]
    norm_num
  · rw [intToChars, if_neg hneg]
    obtain ⟨c, t, heq, hdig⟩ := natToChars_head i.natAbs
    have hnotminus : ¬c = '-' := by
      intro h
      rw [h] at hdig
      exact absurd hdig (by decide)
    rw [heq, List.cons_append, jpNumber, if_neg hnotminus, ← List.cons_append,
      ← heq, jpNumMag_natToChars i.natAbs e rest he]
    have habs : ((i.natAbs : Nat) : Rat) = (i : Rat) := by
      have h1 : ((i.natAbs : Nat) : Int) = i := Int.natAbs_of_nonneg (by omega)
      calc ((i.natAbs : Nat) : Rat) = (((i.natAbs : Nat) : Int) : Rat) :=
            (Int.cast_natCast _).symm
        _ = (i : Rat) := by rw [h1]
    rw [habs]


theorem jpHexVal_hexDigitChar : ∀ n, n < 16 → jpHexVal (hexDigitChar n) = some n := by
  decide

/-- Parsing a string body inverts `JSON.stringify` escaping. -/
theorem jpStrAux_escape : ∀ (s rest : JStr),
    jpStrAux (jsonEscape s ++ '"' :: rest) 0 0 = some (s, rest)
  | [], rest => by
    show jpStrAux ('"' :: rest) 0 0 = some ([], rest)
    rw [jpStrAux, if_pos rfl]
  | c :: s, rest => by
    have ih := jpStrAux_escape s rest
    show jpStrAux ((jsonEscapeChar c ++ jsonEscape s) ++ '"' :: rest) 0 0 =
      some (c :: s, rest)
    rw [List.append_assoc, jsonEscapeChar]
    by_cases h1 : c = '"'
    · rw [if_pos h1, h1]
      simp [jpStrAux, jpEscChar, ih]
    · rw [if_neg h1]
      by_cases h2 : c = '\\'
      · rw [if_pos h2, h2]
        simp [jpStrAux, jpEscChar, ih]
      · rw [if_neg h2]
        by_cases h3 : c.toNat = 8
        · rw [if_pos h3]
          have hc : Char.ofNat 8 = c := by rw [← h3, Char.ofNat_toNat]
          simp [jpStrAux, jpEscChar, ih, hc]
          try exact hc
        · rw [if_neg h3]
          by_cases h4 : c.toNat = 9
          · rw [if_pos h4]
            have hc : Char.ofNat 9 = c := by rw [← h4, Char.ofNat_toNat]
            simp [jpStrAux, jpEscChar, ih, hc]
            try exact hc
          · rw [if_neg h4]
            by_cases h5 : c.toNat = 10
            · rw [if_pos h5]
              have hc : Char.ofNat 10 = c := by rw [← h5, Char.ofNat_toNat]
              simp [jpStrAux, jpEscChar, ih, hc]
              try exact hc
            · rw [if_neg h5]
              by_cases h6 : c.toNat = 12
              · rw [if_pos h6]
                have hc : Char.ofNat 12 = c := by rw [← h6, Char.ofNat_toNat]
                simp [jpStrAux, jpEscChar, ih, hc]
                try exact hc
              · rw [if_neg h6]
                by_cases h7 : c.toNat = 13
                · rw [if_pos h7]
                  have hc : Char.ofNat 13 = c := by rw [← h7, Char.ofNat_toNat]
                  simp [jpStrAux, jpEscChar, ih, hc]
                  try exact hc
                · rw [if_neg h7]
                  by_cases h8 : c.toNat < 32
                  · rw [if_pos h8]
                    have hhi := jpHexVal_hexDigitChar (c.toNat / 16) (by omega)
                    have hlo := jpHexVal_hexDigitChar (c.toNat % 16) (by omega)
                    have hval : c.toNat / 16 * 16 + c.toNat % 16 = c.toNat := by
                      omega
                    have hc : Char.ofNat c.toNat = c := Char.ofNat_toNat c
                    have hsur : ¬(55296 ≤ c.toNat ∧ c.toNat ≤ 57343) := by omega
                    have hz : jpHexVal '0' = some 0 := by decide
                    simp [jpStrAux, hz, hhi, hlo, hval, ih, hc]
                    omega
                  · rw [if_neg h8]
                    simp [jpStrAux, ih, h1, h2, h8]

theorem jsonSkipWs_cons (c : Char) (t : JStr) (h : isJsonWsChar c = false) :
    jsonSkipWs (c :: t) = c :: t := by
  rw [jsonSkipWs, List.dropWhile_cons, h]
  simp

theorem jpValue_quote (f : Nat) (s rest : JStr) :
    jpValue (f + 1) (jsonQuote s ++ rest) = some (JVal.jstr s, rest) := by
  have hin : jsonQuote s ++ rest = '"' :: (jsonEscape s ++ '"' :: rest) := by
    simp [jsonQuote]
  rw [hin, jpValue, jsonSkipWs_cons _ _ (by decide)]
  simp [jpString, jpStrAux_escape s rest]

theorem jpValue_dispatch_num (f : Nat) (c : Char) (t : JStr)
    (h7 : c = '-' ∨ isJsonDigit c = true) (hws : isJsonWsChar c = false) :
    jpValue (f + 1) (c :: t) = (jpNumber (c :: t)).map (fun p => (JVal.jnum p.1, p.2)) := by
  have hcn : c.toNat = 45 ∨ (48 ≤ c.toNat ∧ c.toNat ≤ 57) := by
    rcases h7 with h | h
    · left
      rw [h]
      rfl
    · right
      simp [isJsonDigit] at h
      omega
  have h1 : ¬c = '"' := by
    intro h
    rw [h] at hcn
    revert hcn
    decide
  have h2 : ¬c = Char.ofNat 123 := by
    intro h
    rw [h] at hcn
    revert hcn
    decide
  have h3 : ¬c = '[' := by
    intro h
    rw [h] at hcn
    revert hcn
    decide
  have h4 : ¬c = 'n' := by
    intro h
    rw [h] at hcn
    revert hcn
    decide
  have h5 : ¬c = 't' := by
    intro h
    rw [h] at hcn
    revert hcn
    decide
  have h6 : ¬c = 'f' := by
    intro h
    rw [h] at hcn
    revert hcn
    decide
  rw [jpValue, jsonSkipWs_cons c t hws]
  simp only [if_neg h1, if_neg h2, if_neg h3, if_neg h4, if_neg h5, if_neg h6,
    if_pos h7]

theorem isJsonDigit_not_ws (c : Char) (h : isJsonDigit c = true) :
    isJsonWsChar c = false := by
  simp [isJsonDigit] at h
  simp [isJsonWsChar]
  omega

theorem ValOk_int (i : Int) :
    ∀ (f : Nat) (e : Char) (rest : JStr), e = ',' ∨ e = Char.ofNat 125 →
      jpValue (f + 1) (intToChars i ++ e :: rest) =
        some (JVal.jnum (i : Rat), e :: rest) := by
  intro f e rest he
  have hstop : jpNumStop e := by
    rcases he with rfl | rfl
    · exact ⟨by decide, by decide, by decide, by decide⟩
    · exact ⟨by decide, by decide, by decide, by decide⟩
  by_cases hneg : i < 0
  · have hint : intToChars i = '-' :: natToChars i.natAbs := by
      rw [intToChars, if_pos hneg]
    rw [hint, List.cons_append,
      jpValue_dispatch_num f '-' _ (Or.inl rfl) (by decide),
      ← List.cons_append, ← hint, jpNumber_intToChars i e rest hstop]
    rw [Option.map_some']
  · have hint : intToChars i = natToChars i.natAbs := by
      rw [intToChars, if_neg hneg]
    obtain ⟨c, t, heq, hdig⟩ := natToChars_head i.natAbs
    rw [hint, heq, List.cons_append,
      jpValue_dispatch_num f c _ (Or.inr hdig) (isJsonDigit_not_ws c hdig),
      ← List.cons_append, ← heq, ← hint, jpNumber_intToChars i e rest hstop]
    rw [Option.map_some']

theorem jpExpect_self (c : Char) (t : JStr) (h : isJsonWsChar c = false) :
    jpExpect c (c :: t) = some t := by
  rw [jpExpect, jsonSkipWs_cons c t h]
  simp

/-- `txt` parses as the single value `v` when followed by a `,` or a closing
brace (the two characters that can follow a member value in an object). -/
def ValOk (v : JVal) (txt : JStr) : Prop :=
  ∀ (f : Nat) (e : Char) (rest : JStr), e = ',' ∨ e = Char.ofNat 125 →
    jpValue (f + 1) (txt ++ e :: rest) = some (v, e :: rest)

theorem ValOk_str (s : JStr) : ValOk (JVal.jstr s) (jsonQuote s) := by
  intro f e rest _
  exact jpValue_quote f s (e :: rest)

/-- The member texts of a serialized object, `,`-separated. -/
def memberChainText : List (JStr × JVal × JStr) → JStr
  | [] => []
  | [it] => jsonQuote it.1 ++ ':' :: it.2.2
  | it :: rest => jsonQuote it.1 ++ ':' :: (it.2.2 ++ ',' :: memberChainText rest)

theorem jpMembers_chain : ∀ (items : List (JStr × JVal × JStr)) (f : Nat)
    (rest : JStr), (∀ it ∈ items, ValOk it.2.1 it.2.2) → items ≠ [] →
    jpMembers (items.length + f + 1)
        (memberChainText items ++ Char.ofNat 125 :: rest) =
      some (items.map (fun it => (it.1, it.2.1)), rest) := by
  intro items
  induction items with
  | nil =>
    intro f rest _ hne
    exact absurd rfl hne
  | cons it rest2 ih =>
    intro f rest hval _
    obtain ⟨k, v, txt⟩ := it
    have hv : ValOk v txt := hval (k, v, txt) (by simp)
    cases rest2 with
    | nil =>
      have hs : memberChainText [(k, v, txt)] ++ Char.ofNat 125 :: rest =
          '"' :: (jsonEscape k ++ '"' :: ':' :: (txt ++ Char.ofNat 125 :: rest)) := by
        show (jsonQuote k ++ ':' :: txt) ++ Char.ofNat 125 :: rest = _
        simp [jsonQuote]
      have hfu : ([(k, v, txt)] : List (JStr × JVal × JStr)).length + f + 1
          = f + 1 + 1 := by
        simp
        omega
      rw [hfu, hs, jpMembers, jpExpect_self '"' _ (by decide)]
      rw [Option.some_bind, jpString, jpStrAux_escape k _, Option.some_bind,
        jpExpect_self ':' _ (by decide), Option.some_bind,
        hv f (Char.ofNat 125) rest (Or.inr rfl), Option.some_bind,
        jsonSkipWs_cons _ _ (by decide)]
      simp
    | cons it2 t =>
      have hs : memberChainText ((k, v, txt) :: it2 :: t) ++ Char.ofNat 125 :: rest =
          '"' :: (jsonEscape k ++ '"' :: ':' ::
            (txt ++ ',' :: (memberChainText (it2 :: t) ++ Char.ofNat 125 :: rest))) := by
        show (jsonQuote k ++ ':' :: (txt ++ ',' :: memberChainText (it2 :: t)))
            ++ Char.ofNat 125 :: rest = _
        simp [jsonQuote]
      have hfu : ((k, v, txt) :: it2 :: t).length + f + 1
          = ((it2 :: t).length + f + 1) + 1 := by
        simp
        omega
      rw [hfu, hs, jpMembers, jpExpect_self '"' _ (by decide)]
      rw [Option.some_bind, jpString, jpStrAux_escape k _, Option.some_bind,
        jpExpect_self ':' _ (by decide), Option.some_bind]
      have hg : (it2 :: t).length + f + 1 = ((it2 :: t).length + f) + 1 := by omega
      rw [hg, hv ((it2 :: t).length + f) ',' _ (Or.inl rfl), Option.some_bind,
        jsonSkipWs_cons _ _ (by decide)]
      have hih := ih f rest (fun it hit => hval it (List.mem_cons_of_mem _ hit))
        (by simp)
      rw [hg] at hih
      simp only [List.map_cons]
      simp [Option.map]
      have hfu2 : t.length + 1 + f + 1 = (it2 :: t).length + f + 1 := by simp
      rw [hfu2, hih]
      simp

theorem jpExpect_ne (c d : Char) (t : JStr) (hws : isJsonWsChar d = false)
    (hne : ¬d = c) : jpExpect c (d :: t) = none := by
  rw [jpExpect, jsonSkipWs_cons _ _ hws]
  simp [hne]

theorem memberChainText_cons (it : JStr × JVal × JStr)
    (rest2 : List (JStr × JVal × JStr)) :
    ∃ w, memberChainText (it :: rest2) = '"' :: w := by
  cases rest2 with
  | nil =>
    exact ⟨jsonEscape it.1 ++ '"' :: ':' :: it.2.2,
      by simp [memberChainText, jsonQuote]⟩
  | cons it2 t =>
    exact ⟨jsonEscape it.1 ++ '"' :: ':' :: (it.2.2 ++ ',' :: memberChainText (it2 :: t)),
      by simp [memberChainText, jsonQuote]⟩

/-- A brace-wrapped member chain parses as the corresponding object. -/
theorem jpValue_obj (items : List (JStr × JVal × JStr)) (f : Nat) (rest : JStr)
    (hval : ∀ it ∈ items, ValOk it.2.1 it.2.2) (hne : items ≠ []) :
    jpValue (items.length + f + 2)
        (Char.ofNat 123 :: (memberChainText items ++ Char.ofNat 125 :: rest)) =
      some (JVal.jobj (items.map (fun it => (it.1, it.2.1))), rest) := by
  obtain ⟨it, rest2, rfl⟩ : ∃ it rest2, items = it :: rest2 := by
    cases items with
    | nil => exact absurd rfl hne
    | cons it rest2 => exact ⟨it, rest2, rfl⟩
  obtain ⟨w, hw⟩ := memberChainText_cons it rest2
  have hexp : jpExpect (Char.ofNat 125)
      (memberChainText (it :: rest2) ++ Char.ofNat 125 :: rest) = none := by
    rw [hw, List.cons_append]
    exact jpExpect_ne _ '"' _ (by decide) (by decide)
  have hchain := jpMembers_chain (it :: rest2) f rest hval hne
  rw [jpValue, jsonSkipWs_cons _ _ (by decide)]
  simp only [List.length_cons] at hchain ⊢
  simp [hexp, hchain]

theorem memberChainText_length : ∀ (items : List (JStr × JVal × JStr)),
    items.length ≤ (memberChainText items).length
  | [] => by simp [memberChainText]
  | [it] => by
    simp [memberChainText, jsonQuote]
  | it :: it2 :: t => by
    have ih := memberChainText_length (it2 :: t)
    show (it2 :: t).length + 1 ≤
      (jsonQuote it.1 ++ ':' :: (it.2.2 ++ ',' :: memberChainText (it2 :: t))).length
    simp [jsonQuote]
    simp at ih
    omega

/-- `JSON.parse` of a serialized nonempty object built from parseable member
texts. -/
theorem jsonParse_chain (items : List (JStr × JVal × JStr))
    (hval : ∀ it ∈ items, ValOk it.2.1 it.2.2) (hne : items ≠ []) :
    jsonParse (Char.ofNat 123 :: (memberChainText items ++ [Char.ofNat 125])) =
      some (JVal.jobj (items.map (fun it => (it.1, it.2.1)))) := by
  have hlen := memberChainText_length items
  have hbound : items.length + 1 ≤
      (Char.ofNat 123 :: (memberChainText items ++ [Char.ofNat 125])).length := by
    simp
    omega
  have hf : (Char.ofNat 123 :: (memberChainText items ++ [Char.ofNat 125])).length + 1
      = items.length +
        ((Char.ofNat 123 :: (memberChainText items ++ [Char.ofNat 125])).length
          - items.length - 1) + 2 := by
    omega
  rw [jsonParse, hf]
  have hobj := jpValue_obj items
    ((Char.ofNat 123 :: (memberChainText items ++ [Char.ofNat 125])).length
      - items.length - 1) [] hval hne
  rw [show memberChainText items ++ [Char.ofNat 125] =
    memberChainText items ++ Char.ofNat 125 :: [] from rfl, hobj]
  simp [jsonSkipWs]

theorem ValOk_one : ValOk (JVal.jnum 1) ['1'] := by
  have h : ∀ (f : Nat) (e : Char) (rest : JStr), e = ',' ∨ e = Char.ofNat 125 →
      jpValue (f + 1) (intToChars 1 ++ e :: rest) =
        some (JVal.jnum ((1 : Int) : Rat), e :: rest) := ValOk_int 1
  intro f e rest he
  have h2 := h f e rest he
  rw [show intToChars 1 = ['1'] from by decide] at h2
  rw [show ((1 : Int) : Rat) = (1 : Rat) from by norm_num] at h2
  exact h2

theorem ValOk_num_int (i : Int) : ValOk (JVal.jnum (i : Rat)) (intToChars i) :=
  ValOk_int i

/-- The member list of the serialized state payload, with each member's
source text. -/
def stateItems (p : GoogleStatePayload) : List (JStr × JVal × JStr) :=
  (['v'], JVal.jnum 1, ['1']) ::
  (['u', 'i', 'd'], JVal.jnum (p.uid : Rat), intToChars p.uid) ::
  (['t', 's'], JVal.jnum (p.ts : Rat), intToChars p.ts) ::
  (['n'], JVal.jstr p.n, jsonQuote p.n) ::
  ((match p.aid with
    | some a => [(['a', 'i', 'd'], JVal.jstr a, jsonQuote a)]
    | none => []) ++
   (match p.hint with
    | some h => [(['h', 'i', 'n', 't'], JVal.jstr h, jsonQuote h)]
    | none => []))

theorem stringifyStatePayload_chain (p : GoogleStatePayload) :
    stringifyStatePayload p =
      Char.ofNat 123 :: (memberChainText (stateItems p) ++ [Char.ofNat 125]) := by
  obtain ⟨uid, ts, n, aid, hint⟩ := p
  cases aid <;> cases hint <;>
    simp [stringifyStatePayload, stateItems, memberChainText, jsonQuote]

theorem stateItems_valOk (p : GoogleStatePayload) :
    ∀ it ∈ stateItems p, ValOk it.2.1 it.2.2 := by
  intro it hit
  obtain ⟨uid, ts, n, aid, hint⟩ := p
  cases aid <;> cases hint <;>
    (simp [stateItems] at hit;
     rcases hit with rfl | rfl | rfl | rfl | rfl | rfl <;>
       first
         | exact ValOk_one
         | exact ValOk_num_int _
         | exact ValOk_str _)

/-- Parsing inverts serialization for a payload already in normalized form
(nonce nonblank, optional fields trimmed and nonempty). -/
theorem parseStatePayload_roundtrip (p : GoogleStatePayload)
    (hn1 : jsTrim p.n = p.n) (hn2 : p.n ≠ [])
    (ha : ∀ a, p.aid = some a → jsTrim a = a ∧ a ≠ [])
    (hh : ∀ h, p.hint = some h → jsTrim h = h ∧ h ≠ []) :
    parseStatePayload (base64urlEncode (utf8Encode (stringifyStatePayload p))) =
      some p := by
  have hparse : jsonParse (stringifyStatePayload p) =
      some (JVal.jobj ((stateItems p).map (fun it => (it.1, it.2.1)))) := by
    rw [stringifyStatePayload_chain p]
    exact jsonParse_chain (stateItems p) (stateItems_valOk p) (by simp [stateItems])
  rw [parseStatePayload,
    base64urlDecode_encode _ (utf8Encode_lt _), Option.some_bind,
    utf8Decode_encode, Option.some_bind, parseStateText, hparse]
  obtain ⟨uid, ts, n, aid, hint⟩ := p
  simp only [] at hn1 hn2 ha hh
  cases aid with
  | none =>
    cases hint with
    | none =>
      simp [stateItems, jlookup, optTrimmedField, jsTruncInt_intCast, hn1, hn2]
    | some h =>
      obtain ⟨hh1, hh2⟩ := hh h rfl
      simp [stateItems, jlookup, optTrimmedField, jsTruncInt_intCast, hn1, hn2,
        hh1, hh2]
  | some a =>
    obtain ⟨ha1, ha2⟩ := ha a rfl
    cases hint with
    | none =>
      simp [stateItems, jlookup, optTrimmedField, jsTruncInt_intCast, hn1, hn2,
        ha1, ha2]
    | some h =>
      obtain ⟨hh1, hh2⟩ := hh h rfl
      simp [stateItems, jlookup, optTrimmedField, jsTruncInt_intCast, hn1, hn2,
        ha1, ha2, hh1, hh2]

theorem base64urlEncode_ne_nil (bs : List Nat) (h : bs ≠ []) :
    base64urlEncode bs ≠ [] := by
  intro hcon
  have hl := base64urlEncode_length bs
  rw [hcon] at hl
  simp at hl
  have hb : bs.length ≠ 0 := by
    intro hz
    exact h (List.length_eq_zero.mp hz)
  split at hl <;> omega

theorem stringify_utf8_ne_nil (p : GoogleStatePayload) :
    utf8Encode (stringifyStatePayload p) ≠ [] := by
  rw [stringifyStatePayload]
  exact utf8Encode_ne_nil _ _

/-- The character-level facts about a freshly created token: both segments
are nonempty, whitespace-free, and dot-free apart from the separator. -/
theorem token_segment_facts (p : GoogleStatePayload) (secret : JStr) :
    (base64urlEncode (utf8Encode (stringifyStatePayload p)) ≠ [] ∧
     (signatureForPayload (base64urlEncode (utf8Encode (stringifyStatePayload p)))
        secret).length = 43) ∧
    (∀ c ∈ base64urlEncode (utf8Encode (stringifyStatePayload p)),
      c ≠ '.' ∧ isJsWhitespaceChar c = false) ∧
    (∀ c ∈ signatureForPayload
        (base64urlEncode (utf8Encode (stringifyStatePayload p))) secret,
      c ≠ '.' ∧ isJsWhitespaceChar c = false) := by
  refine ⟨⟨?_, ?_⟩, ?_, ?_⟩
  · exact base64urlEncode_ne_nil _ (stringify_utf8_ne_nil p)
  · rw [signatureForPayload, base64urlEncode_length, hmacSha256_length]
    norm_num
  · intro c hc
    exact (base64urlEncode_plain _ (utf8Encode_lt _) c hc).2
  · intro c hc
    rw [signatureForPayload] at hc
    exact (base64urlEncode_plain _ (hmacSha256_lt _ _) c hc).2

/-- Reduce `verifyGoogleStateToken` on an input whose trim splits as a
payload, a final separator, and a signature segment, both nonempty: the
separator is found at the end of the payload segment and the two segments
are recovered exactly. -/
theorem verify_raw_split (state secret pe sig : JStr) (nowMs : Rat)
    (maxAgeMs : Option Rat) (hdec : jsTrim state = pe ++ '.' :: sig)
    (hpe_ne : pe ≠ []) (hsig_ne : sig ≠ []) (hdot : '.' ∉ sig) :
    verifyGoogleStateToken state secret nowMs maxAgeMs =
      (if ¬ safeEqualStrings sig (signatureForPayload pe secret) then
        .err .signature
       else
        match parseStatePayload pe with
        | none => .err .invalid
        | some payload =>
          if payload.ts > jsTruncInt nowMs + 60000 ∨
              jsTruncInt nowMs - payload.ts >
                max 60000 (jsTruncInt (maxAgeMs.getD GOOGLE_STATE_MAX_AGE_MS)) then
            .err .expired
          else .ok payload) := by
  have hlen : (pe ++ '.' :: sig).length = pe.length + sig.length + 1 := by
    simp
    omega
  have hpe_pos : 0 < pe.length := List.length_pos.mpr hpe_ne
  have hsig_pos : 0 < sig.length := List.length_pos.mpr hsig_ne
  simp only [verifyGoogleStateToken]
  rw [hdec]
  rw [if_neg (by simp)]
  rw [jsLastIndexOf_split pe sig '.' hdot]
  rw [if_neg (by
    rw [not_or, hlen]
    constructor
    · omega
    · push_cast
      omega)]
  rw [Int.toNat_natCast, List.take_left]
  have hdrop : List.drop (pe.length + 1) (pe ++ '.' :: sig) = sig := by
    have h2 : pe ++ '.' :: sig = (pe ++ ['.']) ++ sig := by simp
    rw [h2, show pe.length + 1 = (pe ++ ['.']).length from by simp, List.drop_left]
  rw [hdrop]

/-- The whitespace-free special case: trimming is the identity. -/
theorem verify_split (secret pe sig : JStr) (nowMs : Rat) (maxAgeMs : Option Rat)
    (hpe_ne : pe ≠ []) (hsig_ne : sig ≠ [])
    (hplain : ∀ c ∈ pe ++ '.' :: sig, isJsWhitespaceChar c = false)
    (hdot : '.' ∉ sig) :
    verifyGoogleStateToken (pe ++ '.' :: sig) secret nowMs maxAgeMs =
      (if ¬ safeEqualStrings sig (signatureForPayload pe secret) then
        .err .signature
       else
        match parseStatePayload pe with
        | none => .err .invalid
        | some payload =>
          if payload.ts > jsTruncInt nowMs + 60000 ∨
              jsTruncInt nowMs - payload.ts >
                max 60000 (jsTruncInt (maxAgeMs.getD GOOGLE_STATE_MAX_AGE_MS)) then
            .err .expired
          else .ok payload) :=
  verify_raw_split _ secret pe sig nowMs maxAgeMs
    (jsTrim_id_of_all _ hplain) hpe_ne hsig_ne hdot

theorem optNormalize_normalized (o : Option JStr) :
    ∀ a, optNormalize o = some a → jsTrim a = a ∧ a ≠ [] := by
  intro a hsome
  cases o with
  | none => exact absurd hsome (by simp [optNormalize])
  | some s =>
    rw [optNormalize] at hsome
    split at hsome
    · exact absurd hsome (by simp)
    · rename_i hcond
      simp at hsome
      rw [← hsome]
      exact ⟨jsTrim_idem s, hcond⟩

/-- C6: round-trip.  Verifying, under the same secret, the token
`createGoogleStateToken` produced returns `ok` with the original (truncated)
user id preserved, along with the issue timestamp, hex nonce and normalized
optional fields, for any truncated verification clock at or after issuance
and within the effective (clamped) max age. -/
theorem c6_roundtrip
    (secret : JStr) (telegramUserId nowMs verifyNow : Rat)
    (accountId loginHint : Option JStr) (entropy : List Nat)
    (maxAgeMs : Option Rat)
    (hentropy : entropy.length = 12)
    (hafter : jsTruncInt nowMs ≤ jsTruncInt verifyNow)
    (hage : jsTruncInt verifyNow - jsTruncInt nowMs ≤
      max 60000 (jsTruncInt (maxAgeMs.getD GOOGLE_STATE_MAX_AGE_MS))) :
    verifyGoogleStateToken
        (createGoogleStateToken secret telegramUserId accountId loginHint
          entropy nowMs)
        secret verifyNow maxAgeMs =
      .ok { uid := jsTruncInt telegramUserId, ts := jsTruncInt nowMs,
            n := bytesToHex entropy,
            aid := optNormalize accountId, hint := optNormalize loginHint } := by
  have hfacts := token_segment_facts
    { uid := jsTruncInt telegramUserId, ts := jsTruncInt nowMs,
      n := bytesToHex entropy,
      aid := optNormalize accountId, hint := optNormalize loginHint } secret
  obtain ⟨⟨hpe_ne, hsig_len⟩, hpe_plain, hsig_plain⟩ := hfacts
  have hsig_ne : signatureForPayload
      (base64urlEncode (utf8Encode (stringifyStatePayload
        { uid := jsTruncInt telegramUserId, ts := jsTruncInt nowMs,
          n := bytesToHex entropy,
          aid := optNormalize accountId, hint := optNormalize loginHint })))
      secret ≠ [] := by
    intro hcon
    rw [hcon] at hsig_len
    simp at hsig_len
  have hstate : createGoogleStateToken secret telegramUserId accountId loginHint
      entropy nowMs =
      base64urlEncode (utf8Encode (stringifyStatePayload
        { uid := jsTruncInt telegramUserId, ts := jsTruncInt nowMs,
          n := bytesToHex entropy,
          aid := optNormalize accountId, hint := optNormalize loginHint })) ++
      '.' :: signatureForPayload
        (base64urlEncode (utf8Encode (stringifyStatePayload
          { uid := jsTruncInt telegramUserId, ts := jsTruncInt nowMs,
            n := bytesToHex entropy,
            aid := optNormalize accountId, hint := optNormalize loginHint })))
        secret := rfl
  rw [hstate, verify_split _ _ _ _ _ hpe_ne hsig_ne
    (by
      intro c hc
      rw [List.mem_append, List.mem_cons] at hc
      rcases hc with hc | hc | hc
      · exact (hpe_plain c hc).2
      · rw [hc]
        decide
      · exact (hsig_plain c hc).2)
    (fun hmem => (hsig_plain '.' hmem).1 rfl)]
  rw [if_neg (by
    rw [safeEqualStrings_iff]
    simp)]
  rw [parseStatePayload_roundtrip _
    (jsTrim_id_of_all _ (by
      intro c hc
      obtain ⟨m, hm, rfl⟩ := bytesToHex_mem entropy c hc
      exact (hexDigitChar_facts m hm).1))
    (by
      intro hcon
      have hcon2 : bytesToHex entropy = [] := hcon
      have hl := bytesToHex_length entropy
      rw [hcon2, hentropy] at hl
      simp at hl)
    (optNormalize_normalized accountId)
    (optNormalize_normalized loginHint)]
  simp only []
  simp
  constructor
  · omega
  · intro h60
    have h2 := le_max_iff.mp hage
    rcases h2 with h2 | h2 <;> omega

/-- Classification of the embedded verifier over its own universe:
`verifyGoogleStateToken` answers with exactly one of `missing`, `invalid`,
`signature`, `expired` or success, checked in this order: blank input is
`missing`; an absent separator, or an empty payload or signature segment,
is `invalid`; an HMAC mismatch is `signature`; a payload failing schema
validation is `invalid`; an issue time more than the effective max age
(clamped to at least 60 s) in the past, or more than 60 s in the future,
is `expired`; otherwise the token verifies.  The separator cases are
phrased via the decomposition of the trimmed input at its last `.`.

This characterizes the model, not the runtime, on inputs outside the
encoder's range: the idealizations recorded on the parse layer (exact
rationals for IEEE doubles, Unicode scalars for JS strings, strict
decoders for Node's lenient ones) make the model's `invalid`/success
boundary differ from the source's on such inputs, so this theorem is
supporting material and formalizes no claim about arbitrary input
strings. -/
theorem verifyModel_classification (state secret : JStr) (nowMs : Rat)
    (maxAgeMs : Option Rat) :
    (jsTrim state = [] →
      verifyGoogleStateToken state secret nowMs maxAgeMs = .err .missing) ∧
    (jsTrim state ≠ [] → '.' ∉ jsTrim state →
      verifyGoogleStateToken state secret nowMs maxAgeMs = .err .invalid) ∧
    (∀ pe sig, jsTrim state = pe ++ '.' :: sig → '.' ∉ sig →
      ((pe = [] ∨ sig = []) →
        verifyGoogleStateToken state secret nowMs maxAgeMs = .err .invalid) ∧
      (pe ≠ [] → sig ≠ [] →
        (¬ safeEqualStrings sig (signatureForPayload pe secret) = true →
          verifyGoogleStateToken state secret nowMs maxAgeMs = .err .signature) ∧
        (safeEqualStrings sig (signatureForPayload pe secret) = true →
          (parseStatePayload pe = none →
            verifyGoogleStateToken state secret nowMs maxAgeMs = .err .invalid) ∧
          (∀ p, parseStatePayload pe = some p →
            ((p.ts > jsTruncInt nowMs + 60000 ∨
                jsTruncInt nowMs - p.ts >
                  max 60000 (jsTruncInt (maxAgeMs.getD GOOGLE_STATE_MAX_AGE_MS))) →
              verifyGoogleStateToken state secret nowMs maxAgeMs =
                .err .expired) ∧
            (¬(p.ts > jsTruncInt nowMs + 60000 ∨
                jsTruncInt nowMs - p.ts >
                  max 60000 (jsTruncInt (maxAgeMs.getD GOOGLE_STATE_MAX_AGE_MS))) →
              verifyGoogleStateToken state secret nowMs maxAgeMs =
                .ok p))))) := by
  refine ⟨?_, ?_, ?_⟩
  · intro h
    simp only [verifyGoogleStateToken]
    rw [h, if_pos rfl]
  · intro hne hnomem
    simp only [verifyGoogleStateToken]
    rw [if_neg hne, jsLastIndexOf_not_mem _ _ hnomem,
      if_pos (Or.inl (by norm_num))]
  · intro pe sig hdec hdot
    refine ⟨?_, ?_⟩
    · intro hor
      simp only [verifyGoogleStateToken]
      rw [hdec, if_neg (by simp), jsLastIndexOf_split pe sig '.' hdot]
      rcases hor with rfl | rfl
      · rw [if_pos (Or.inl (by norm_num))]
      · rw [if_pos (Or.inr (by simp))]
    · intro hpe hsig
      rw [verify_raw_split state secret pe sig nowMs maxAgeMs hdec hpe hsig hdot]
      refine ⟨?_, ?_⟩
      · intro hnot
        rw [if_pos hnot]
      · intro heq
        rw [if_neg (by simp [heq])]
        refine ⟨?_, ?_⟩
        · intro hp
          rw [hp]
        · intro p hp
          rw [hp]
          refine ⟨fun hex => ?_, fun hnex => ?_⟩
          · show (if p.ts > jsTruncInt nowMs + 60000 ∨
                jsTruncInt nowMs - p.ts >
                  max 60000 (jsTruncInt (maxAgeMs.getD GOOGLE_STATE_MAX_AGE_MS))
              then VerifyResult.err .expired else VerifyResult.ok p) =
              VerifyResult.err .expired
            rw [if_pos hex]
          · show (if p.ts > jsTruncInt nowMs + 60000 ∨
                jsTruncInt nowMs - p.ts >
                  max 60000 (jsTruncInt (maxAgeMs.getD GOOGLE_STATE_MAX_AGE_MS))
              then VerifyResult.err .expired else VerifyResult.ok p) =
              VerifyResult.ok p
            rw [if_neg hnex]

theorem signatureForPayload_length (pe secret : JStr) :
    (signatureForPayload pe secret).length = 43 := by
  rw [signatureForPayload, base64urlEncode_length, hmacSha256_length]
  norm_num

theorem signatureForPayload_mem (pe secret : JStr) :
    ∀ c ∈ signatureForPayload pe secret, ∃ n, n < 64 ∧ c = b64UrlChar n := by
  rw [signatureForPayload]
  exact base64urlEncode_mem _ (hmacSha256_lt _ _)

theorem getLast?_append_right (l₁ l₂ : JStr) (h : l₂ ≠ []) :
    (l₁ ++ l₂).getLast? = l₂.getLast? := by
  rw [List.getLast?_append]
  cases hx : l₂.getLast? with
  | none =>
    rw [List.getLast?_eq_none_iff] at hx
    exact absurd hx h
  | some d => rfl

theorem safeEqualStrings_ne (left right : JStr) (h : left ≠ right) :
    safeEqualStrings left right = false := by
  rw [Bool.eq_false_iff]
  intro hcon
  exact h (safeEqualStrings_iff left right |>.mp hcon)

/-- Core of the tamper argument, over an abstract payload segment and
signature.  `hsig` pins the signature to the HMAC of the payload segment, so
its length is 43 and a shortened remnant can never compare equal. -/
theorem verify_tampered_core (secret pe sig : JStr) (verifyNow : Rat)
    (maxAgeMs : Option Rat)
    (hpe_plain : ∀ x ∈ pe, x ≠ '.' ∧ isJsWhitespaceChar x = false)
    (hpe_ne : pe ≠ [])
    (hsig : sig = signatureForPayload pe secret)
    (hsig_mem : ∀ x ∈ sig, ∃ n, n < 64 ∧ x = b64UrlChar n)
    (i : Nat) (c : Char) (hi : i < sig.length)
    (hdiff : c ≠ sig.get ⟨i, hi⟩)
    (hexc : ¬(c = '.' ∧ i + 1 = sig.length)) :
    verifyGoogleStateToken (pe ++ '.' :: sig.set i c) secret verifyNow maxAgeMs
      = .err .signature := by
  have hsig_plain : ∀ x ∈ sig, x ≠ '.' ∧ isJsWhitespaceChar x = false := by
    intro x hx
    obtain ⟨n, hn, rfl⟩ := hsig_mem x hx
    exact ⟨(b64UrlChar_plain n hn).2.1, (b64UrlChar_plain n hn).2.2⟩
  have hsig_len : sig.length = 43 := by
    rw [hsig, signatureForPayload_length]
  have hset_ne : sig.set i c ≠ sig := by
    intro heq
    have h1 : (sig.set i c)[i]? = some c := List.getElem?_set_self hi
    rw [heq, List.getElem?_eq_getElem hi] at h1
    have h2 : sig[i] = sig.get ⟨i, hi⟩ := by rw [List.get_eq_getElem]
    rw [h2] at h1
    have h3 : c = sig.get ⟨i, hi⟩ := by
      injection h1.symm
    exact hdiff h3
  by_cases hdotc : c = '.'
  · -- the separator written inside the signature: the split moves, and the
    -- shorter signature remnant cannot match the 43-character expected HMAC
    subst hdotc
    have hlast : i + 1 ≠ sig.length := fun h => hexc ⟨rfl, h⟩
    have hset : sig.set i '.' = sig.take i ++ '.' :: sig.drop (i + 1) := by
      rw [List.set_eq_take_append_cons_drop, if_pos hi]
    have hsplit : pe ++ '.' :: sig.set i '.' =
        (pe ++ '.' :: sig.take i) ++ '.' :: sig.drop (i + 1) := by
      rw [hset]
      simp
    rw [hsplit, verify_raw_split _ secret (pe ++ '.' :: sig.take i)
      (sig.drop (i + 1)) verifyNow maxAgeMs
      (jsTrim_id_of_all _ (by
        intro x hx
        simp only [List.mem_append, List.mem_cons] at hx
        rcases hx with (hx | hx | hx) | hx | hx
        · exact (hpe_plain x hx).2
        · rw [hx]
          decide
        · exact (hsig_plain x (List.mem_of_mem_take hx)).2
        · rw [hx]
          decide
        · exact (hsig_plain x (List.mem_of_mem_drop hx)).2))
      (by simp)
      (by
        intro hcon
        have hc2 := congrArg List.length hcon
        simp at hc2
        omega)
      (fun hmem => (hsig_plain '.' (List.mem_of_mem_drop hmem)).1 rfl)]
    rw [if_pos (by
      rw [safeEqualStrings_ne]
      · simp
      · intro hcon
        have hc2 := congrArg List.length hcon
        rw [List.length_drop, signatureForPayload_length] at hc2
        omega)]
  · -- a non-separator replacement: the signature segment is recovered as
    -- `sig.set i c` (trimming can shave at most a final whitespace byte) and
    -- never compares equal to the expected 43-character HMAC
    have hdot2 : '.' ∉ sig.set i c := by
      intro hmem
      rcases List.mem_or_eq_of_mem_set hmem with hmem | hmem
      · exact (hsig_plain '.' hmem).1 rfl
      · exact hdotc hmem.symm
    have hset_len : (sig.set i c).length = sig.length := List.length_set sig i c
    have hset_ne_nil : sig.set i c ≠ [] := by
      intro hcon
      rw [hcon] at hset_len
      simp at hset_len
      omega
    have hsafe : ¬ safeEqualStrings (sig.set i c) (signatureForPayload pe secret)
        = true := by
      rw [← hsig, safeEqualStrings_ne _ _ hset_ne]
      simp
    by_cases hws : isJsWhitespaceChar c = false
    · -- replacement is not whitespace: the token stays whitespace-free
      rw [verify_split secret pe (sig.set i c) verifyNow maxAgeMs hpe_ne
        hset_ne_nil
        (by
          intro x hx
          simp only [List.mem_append, List.mem_cons] at hx
          rcases hx with hx | hx | hx
          · exact (hpe_plain x hx).2
          · rw [hx]
            decide
          · rcases List.mem_or_eq_of_mem_set hx with hx | hx
            · exact (hsig_plain x hx).2
            · rw [hx]
              exact hws)
        hdot2]
      rw [if_pos hsafe]
    · rw [Bool.not_eq_false] at hws
      by_cases hlast : i + 1 = sig.length
      · -- a whitespace byte written over the final signature character is
        -- trimmed away; the shortened signature cannot match either
        have htake_sig : ∀ x ∈ sig.take i, x ≠ '.' ∧ isJsWhitespaceChar x = false :=
          fun x hx => hsig_plain x (List.mem_of_mem_take hx)
        have hXplain : ∀ x ∈ pe ++ '.' :: sig.take i,
            isJsWhitespaceChar x = false := by
          intro x hx
          simp only [List.mem_append, List.mem_cons] at hx
          rcases hx with hx | hx | hx
          · exact (hpe_plain x hx).2
          · rw [hx]
            decide
          · exact (htake_sig x hx).2
        have hset : sig.set i c = sig.take i ++ [c] := by
          rw [List.set_eq_take_append_cons_drop, if_pos hi,
            List.drop_eq_nil_of_le (by omega)]
        have hsplit : pe ++ '.' :: sig.set i c =
            (pe ++ '.' :: sig.take i) ++ [c] := by
          rw [hset]
          simp
        have hXhead : ∀ x ∈ ((pe ++ '.' :: sig.take i) ++ [c]).head?,
            isJsWhitespaceChar x = false := by
          intro x hx
          rw [List.head?_append, List.head?_append] at hx
          cases pe with
          | nil => exact absurd rfl hpe_ne
          | cons a t =>
            simp at hx
            rw [← hx]
            exact hXplain a (by simp)
        have htrim : jsTrim (pe ++ '.' :: sig.set i c) =
            pe ++ '.' :: sig.take i := by
          rw [hsplit, jsTrim, dropWhile_of_head_false _ hXhead]
          rw [List.reverse_append, List.reverse_singleton,
            List.singleton_append, List.dropWhile_cons, if_pos hws,
            dropWhile_of_head_false _ (by
              intro x hx
              rw [List.head?_reverse] at hx
              exact hXplain x (List.mem_of_mem_getLast? hx)),
            List.reverse_reverse]
        have htake_len : (sig.take i).length = i := by
          rw [List.length_take]
          omega
        rw [verify_raw_split _ secret pe (sig.take i) verifyNow maxAgeMs htrim
          hpe_ne
          (by
            intro hcon
            rw [hcon] at htake_len
            simp at htake_len
            omega)
          (fun hmem => (htake_sig '.' hmem).1 rfl)]
        rw [if_pos (by
          rw [← hsig, safeEqualStrings_ne _ _ (by
            intro hcon
            have hc2 := congrArg List.length hcon
            rw [htake_len] at hc2
            omega)]
          simp)]
      · -- a whitespace byte strictly inside the signature: the ends of the
        -- token are untouched, so trimming is still the identity
        have hdec : jsTrim (pe ++ '.' :: sig.set i c) =
            pe ++ '.' :: sig.set i c := by
          refine jsTrim_id _ ?_ ?_
          · intro x hx
            rw [List.head?_append] at hx
            cases pe with
            | nil => exact absurd rfl hpe_ne
            | cons a t =>
              simp at hx
              rw [← hx]
              exact (hpe_plain a (by simp)).2
          · intro x hx
            rw [getLast?_append_right pe ('.' :: sig.set i c) (by simp),
              show ('.' :: sig.set i c) = ['.'] ++ sig.set i c from rfl,
              getLast?_append_right _ _ hset_ne_nil,
              List.getLast?_eq_getElem?, hset_len,
              List.getElem?_set_ne (by omega),
              List.getElem?_eq_getElem (by omega : sig.length - 1 < sig.length)]
              at hx
            simp at hx
            rw [← hx]
            exact (hsig_plain _ (List.getElem_mem _)).2
        rw [verify_raw_split _ secret pe (sig.set i c) verifyNow maxAgeMs hdec
          hpe_ne hset_ne_nil hdot2]
        rw [if_pos hsafe]

/-- C7 (amended): for a token produced by `createGoogleStateToken`,
replacing any single signature byte with a different byte makes
`verifyGoogleStateToken` return `err signature` — except that writing the
separator `.` over the final signature byte makes the token end in the
separator and fail the structural check as `err invalid` instead (see the
counterexample). -/
theorem c7_tamper
    (secret : JStr) (telegramUserId nowMs verifyNow : Rat)
    (accountId loginHint : Option JStr) (entropy : List Nat)
    (maxAgeMs : Option Rat) (pe sig : JStr)
    (hpe : pe = base64urlEncode (utf8Encode (stringifyStatePayload
      { uid := jsTruncInt telegramUserId, ts := jsTruncInt nowMs,
        n := bytesToHex entropy, aid := optNormalize accountId,
        hint := optNormalize loginHint })))
    (hsig : sig = signatureForPayload pe secret)
    (i : Nat) (c : Char) (hi : i < sig.length)
    (hdiff : c ≠ sig.get ⟨i, hi⟩)
    (hexc : ¬(c = '.' ∧ i + 1 = sig.length)) :
    createGoogleStateToken secret telegramUserId accountId loginHint entropy
        nowMs = pe ++ '.' :: sig ∧
    verifyGoogleStateToken (pe ++ '.' :: sig.set i c) secret verifyNow maxAgeMs
      = .err .signature := by
  subst hpe
  subst hsig
  exact ⟨rfl, verify_tampered_core secret _ _ verifyNow maxAgeMs
    (fun x hx => (base64urlEncode_plain _ (utf8Encode_lt _) x hx).2)
    (base64urlEncode_ne_nil _ (stringify_utf8_ne_nil _))
    rfl (signatureForPayload_mem _ _) i c hi hdiff hexc⟩

/-- A `.` written over the final signature byte leaves a token ending in the
separator: the new final separator position fails the structural check and
verification reports `invalid`, not `signature`. -/
theorem verify_dot_at_end_core (secret pe sig : JStr) (verifyNow : Rat)
    (maxAgeMs : Option Rat)
    (hpe_plain : ∀ x ∈ pe, x ≠ '.' ∧ isJsWhitespaceChar x = false)
    (hsig : sig = signatureForPayload pe secret)
    (hsig_mem : ∀ x ∈ sig, ∃ n, n < 64 ∧ x = b64UrlChar n) :
    verifyGoogleStateToken (pe ++ '.' :: sig.set 42 '.') secret verifyNow
      maxAgeMs = .err .invalid := by
  have hsig_plain : ∀ x ∈ sig, x ≠ '.' ∧ isJsWhitespaceChar x = false := by
    intro x hx
    obtain ⟨n, hn, rfl⟩ := hsig_mem x hx
    exact ⟨(b64UrlChar_plain n hn).2.1, (b64UrlChar_plain n hn).2.2⟩
  have hsig_len : sig.length = 43 := by
    rw [hsig, signatureForPayload_length]
  have hset : sig.set 42 '.' = sig.take 42 ++ ['.'] := by
    rw [List.set_eq_take_append_cons_drop, if_pos (by omega),
      List.drop_eq_nil_of_le (by omega)]
  have hsplit : pe ++ '.' :: sig.set 42 '.' =
      (pe ++ '.' :: sig.take 42) ++ '.' :: [] := by
    rw [hset]
    simp
  rw [hsplit]
  simp only [verifyGoogleStateToken]
  rw [jsTrim_id_of_all _ (by
    intro x hx
    simp only [List.mem_append, List.mem_cons, List.not_mem_nil, or_false]
      at hx
    rcases hx with (hx | hx | hx) | hx
    · exact (hpe_plain x hx).2
    · rw [hx]
      decide
    · exact (hsig_plain x (List.mem_of_mem_take hx)).2
    · rw [hx]
      decide)]
  rw [if_neg (by simp), jsLastIndexOf_split _ [] '.' (by simp)]
  rw [if_pos (Or.inr (by
    simp
    omega))]

/-- The concrete valid token behind the C7 counterexample: secret `"k"`,
user 7, zero clock, all-zero entropy. -/
def c7Payload : GoogleStatePayload :=
  { uid := jsTruncInt 7, ts := jsTruncInt 0,
    n := bytesToHex (List.replicate 12 0),
    aid := optNormalize none, hint := optNormalize none }

def c7Pe : JStr := base64urlEncode (utf8Encode (stringifyStatePayload c7Payload))

def c7Sig : JStr := signatureForPayload c7Pe ['k']

/-- The tampered token: the final signature byte replaced by `.`. -/
def c7Tampered : JStr := c7Sig.set 42 '.'

theorem c7Sig_length : c7Sig.length = 43 := signatureForPayload_length c7Pe ['k']

theorem c7Sig_mem : ∀ x ∈ c7Sig, ∃ n, n < 64 ∧ x = b64UrlChar n :=
  signatureForPayload_mem c7Pe ['k']

theorem b64UrlChar_ne_star : ∀ n, n < 64 → b64UrlChar n ≠ '*' := by
  decide

theorem c7Sig_pos : 0 < c7Sig.length := by
  rw [c7Sig_length]
  norm_num

theorem c7Sig_get_ne_star (j : Nat) (hj : j < c7Sig.length) :
    ('*' : Char) ≠ c7Sig.get ⟨j, hj⟩ := by
  intro h
  obtain ⟨n, hn, heq⟩ := c7Sig_mem _ (List.get_mem c7Sig j hj)
  refine b64UrlChar_ne_star n hn ?_
  rw [← heq, ← h]

/-- The spec as written fails on this token: replacing the final signature
byte (an alphabet character, hence a genuinely different byte) with `.`
yields `err invalid`, not `err signature`. -/
theorem c7_counterexample :
    createGoogleStateToken ['k'] 7 none none (List.replicate 12 0) 0 =
      c7Pe ++ '.' :: c7Sig ∧
    c7Tampered.length = c7Sig.length ∧
    c7Tampered ≠ c7Sig ∧
    verifyGoogleStateToken (c7Pe ++ '.' :: c7Tampered) ['k'] 0 none =
      .err .invalid := by
  refine ⟨rfl, List.length_set c7Sig 42 '.', ?_, ?_⟩
  · intro heq
    have h42 : 42 < c7Sig.length := by
      rw [c7Sig_length]
      norm_num
    have h1 : (c7Sig.set 42 '.')[42]? = some '.' := List.getElem?_set_self h42
    rw [show c7Tampered = c7Sig.set 42 '.' from rfl] at heq
    rw [heq, List.getElem?_eq_getElem h42] at h1
    have h2 : c7Sig[42] = '.' := by injection h1
    obtain ⟨n, hn, hchar⟩ := c7Sig_mem _ (List.getElem_mem h42)
    exact (b64UrlChar_plain n hn).2.1 (by rw [← hchar, ← h2])
  · exact verify_dot_at_end_core ['k'] c7Pe c7Sig 0 none
      (fun x hx => (base64urlEncode_plain _ (utf8Encode_lt _) x hx).2)
      rfl c7Sig_mem

/-- The blank-input case of the model classification at a concrete input. -/
theorem verifyModel_classification_blank :
    jsTrim [' '] = [] ∧
    verifyGoogleStateToken [' '] ['k'] 0 none = .err .missing :=
  ⟨by decide, (verifyModel_classification [' '] ['k'] 0 none).1 (by decide)⟩

theorem c6_roundtrip_witness :
    (List.replicate 12 0).length = 12 ∧
    jsTruncInt 0 ≤ jsTruncInt 0 ∧
    jsTruncInt 0 - jsTruncInt 0 ≤
      max 60000 (jsTruncInt ((none : Option Rat).getD GOOGLE_STATE_MAX_AGE_MS)) ∧
    verifyGoogleStateToken
        (createGoogleStateToken ['k'] 7 none none (List.replicate 12 0) 0)
        ['k'] 0 none =
      .ok { uid := jsTruncInt 7, ts := jsTruncInt 0,
            n := bytesToHex (List.replicate 12 0),
            aid := optNormalize none, hint := optNormalize none } :=
  ⟨by simp, le_refl _,
    by
      have h1 : GOOGLE_STATE_MAX_AGE_MS = (900000 : Rat) := by
        norm_num [GOOGLE_STATE_MAX_AGE_MS]
      have h2 : jsTruncInt (900000 : Rat) = 900000 := by
        simp [jsTruncInt]
      have h3 : jsTruncInt (0 : Rat) = 0 := by
        simp [jsTruncInt]
      simp [h1, h2, h3],
    c6_roundtrip ['k'] 7 0 0 none none (List.replicate 12 0) none (by simp)
      (le_refl _)
      (by
        have h1 : GOOGLE_STATE_MAX_AGE_MS = (900000 : Rat) := by
          norm_num [GOOGLE_STATE_MAX_AGE_MS]
        have h2 : jsTruncInt (900000 : Rat) = 900000 := by
          simp [jsTruncInt]
        have h3 : jsTruncInt (0 : Rat) = 0 := by
          simp [jsTruncInt]
        simp [h1, h2, h3])⟩

theorem c7_tamper_witness :
    0 < c7Sig.length ∧ ('*' : Char) ≠ '.' ∧
    (createGoogleStateToken ['k'] 7 none none (List.replicate 12 0) 0 =
        c7Pe ++ '.' :: c7Sig ∧
      verifyGoogleStateToken (c7Pe ++ '.' :: c7Sig.set 0 '*') ['k'] 0 none =
        .err .signature) :=
  ⟨c7Sig_pos, by decide,
    c7_tamper ['k'] 7 0 0 none none (List.replicate 12 0) none c7Pe c7Sig rfl
      rfl 0 '*' c7Sig_pos (c7Sig_get_ne_star 0 c7Sig_pos)
      (fun h => absurd h.1 (by decide))⟩
